/-
Verification of the OmniCoder-AGI CLI core (src/cli/omnicoder_agi.py).

This file gives a shallow embedding of the deterministic task-routing and
simulated-execution pipeline, the append-only JSON-lines logger, the settings
store and the training bookkeeping of the repository, and proves or refutes
the specification's claims about them.

Modelling conventions:
* Python floats are modelled as exact rationals (ℚ).  Every float literal in
  the source is an exact decimal, and every arithmetic step of the pipeline
  (sums, one division, multiplications, `min`, `int` truncation, `round`) is
  modelled by the corresponding exact rational operation.
* Python `int` values are modelled as `Nat`/`Int` (CPython ints are unbounded).
* The standard-library pieces the pipeline calls are modelled bit-exactly from
  their CPython implementations: `hashlib.sha256` (FIPS 180-4), and
  `random.Random` (the Mersenne Twister mt19937 with CPython's
  `init_by_array` seeding, `getrandbits`-based `_randbelow`, `randint`,
  `random`, `uniform`).  The models were checked word-for-word against
  CPython's outputs on sample inputs; see the validation `example`s in the
  theorem section.
* I/O (file writes, wall clock, uuid-like task ids) is made explicit: files
  are lists of lines, timestamps and task ids are inputs.
-/
import Mathlib

set_option maxRecDepth 10000
set_option maxHeartbeats 2000000

namespace OmniCoder


/-! ## Python numeric primitives (exact-rational model)

The standard `+ - * /` on `ℚ` are `@[irreducible]`, which blocks `decide`
and `rfl` evaluation of concrete pipeline values.  The `q*` operations below
are definitionally transparent implementations of the same operations (the
bridge lemmas identify them with the standard ones), so every concrete value
of the embedded program evaluates by `decide`. -/

def qadd (a b : ℚ) : ℚ := mkRat (a.num * b.den + b.num * a.den) (a.den * b.den)

def qsub (a b : ℚ) : ℚ := mkRat (a.num * b.den - b.num * a.den) (a.den * b.den)

def qmul (a b : ℚ) : ℚ := mkRat (a.num * b.num) (a.den * b.den)

def qdiv (a b : ℚ) : ℚ := Rat.divInt (a.num * b.den) (a.den * b.num)

def qneg (a : ℚ) : ℚ := Rat.divInt (-a.num) a.den

/-- Transparent list sum. -/
def qsum : List ℚ → ℚ
  | [] => 0
  | x :: xs => qadd x (qsum xs)

/-- Model of Python `int(x)` on a non-complex number: truncation toward zero.
(`Rat.floor` is the kernel-evaluable floor of Batteries.) -/
def pyTrunc (q : ℚ) : Int :=
  if 0 ≤ q then Rat.floor q else -Rat.floor (qneg q)

/-- Round half-up to an integer, kernel-evaluably. -/
def roundQ (q : ℚ) : Int := Rat.floor (qadd q (mkRat 1 2))

/-- Model of Python `round(x, 2)` (round to 2 decimal places).  CPython uses
round-half-to-even on binary floats; no value in this development sits on a
tie, so round-half-up is an exact model on all inputs that occur. -/
def pyRound2 (q : ℚ) : ℚ := qdiv ((roundQ (qmul q 100) : Int) : ℚ) 100

/-- Model of Python `round(x, 4)`. -/
def pyRound4 (q : ℚ) : ℚ := qdiv ((roundQ (qmul q 10000) : Int) : ℚ) 10000

/-! ## UTF-8 encoding (model of Python `str.encode()`) -/

/-- UTF-8 encoding of one code point. -/
def utf8Char (c : Char) : List Nat :=
  let n := c.toNat
  if n < 128 then [n]
  else if n < 2048 then [192 ||| (n >>> 6), 128 ||| (n &&& 63)]
  else if n < 65536 then
    [224 ||| (n >>> 12), 128 ||| ((n >>> 6) &&& 63), 128 ||| (n &&& 63)]
  else
    [240 ||| (n >>> 18), 128 ||| ((n >>> 12) &&& 63),
     128 ||| ((n >>> 6) &&& 63), 128 ||| (n &&& 63)]

/-- UTF-8 encoding of a string, as a byte list. -/
def utf8Bytes (s : String) : List Nat := (s.data.map utf8Char).flatten

/-! ## SHA-256 (model of `hashlib.sha256`, FIPS 180-4) -/

/-- Truncation to a 32-bit word. -/
def w32 (x : Nat) : Nat := x % 4294967296

/-- 32-bit right rotation. -/
def rotr32 (n x : Nat) : Nat := w32 ((x >>> n) ||| (x <<< (32 - n)))

/-- The 64 SHA-256 round constants. -/
def sha256K : List Nat :=
  [1116352408, 1899447441, 3049323471, 3921009573, 961987163, 1508970993,
   2453635748, 2870763221, 3624381080, 310598401, 607225278, 1426881987,
   1925078388, 2162078206, 2614888103, 3248222580, 3835390401, 4022224774,
   264347078, 604807628, 770255983, 1249150122, 1555081692, 1996064986,
   2554220882, 2821834349, 2952996808, 3210313671, 3336571891, 3584528711,
   113926993, 338241895, 666307205, 773529912, 1294757372, 1396182291,
   1695183700, 1986661051, 2177026350, 2456956037, 2730485921, 2820302411,
   3259730800, 3345764771, 3516065817, 3600352804, 4094571909, 275423344,
   430227734, 506948616, 659060556, 883997877, 958139571, 1322822218,
   1537002063, 1747873779, 1955562222, 2024104815, 2227730452, 2361852424,
   2428436474, 2756734187, 3204031479, 3329325298]

/-- SHA-256 padding: append 128, zero bytes, and the 64-bit big-endian bit
length, reaching a multiple of 64 bytes. -/
def sha256Pad (msg : List Nat) : List Nat :=
  let len := msg.length
  let padZeros := (55 + 64 - len % 64) % 64
  let bitLen := len * 8
  msg ++ [128] ++ List.replicate padZeros 0 ++
    (List.range 8).map (fun i => (bitLen >>> ((7 - i) * 8)) % 256)

/-- Big-endian 32-bit words of a byte list (length a multiple of 4). -/
def bytesToWords : List Nat → List Nat
  | a :: b :: c :: d :: rest => (a <<< 24 ||| b <<< 16 ||| c <<< 8 ||| d) :: bytesToWords rest
  | _ => []

/-- Extend 16 message words to 64 (the SHA-256 message schedule).
`acc` grows up to 64 entries; `k` counts the remaining extensions. -/
def sha256Extend : Nat → List Nat → List Nat
  | 0, acc => acc
  | Nat.succ k, acc =>
    let i := acc.length
    let g := fun j => acc.getD j 0
    let s0 := (rotr32 7 (g (i - 15))) ^^^ (rotr32 18 (g (i - 15))) ^^^ ((g (i - 15)) >>> 3)
    let s1 := (rotr32 17 (g (i - 2))) ^^^ (rotr32 19 (g (i - 2))) ^^^ ((g (i - 2)) >>> 10)
    sha256Extend k (acc ++ [w32 (g (i - 16) + s0 + g (i - 7) + s1)])

/-- One SHA-256 compression round. -/
def sha256Round (w k : Nat) :
    Nat × Nat × Nat × Nat × Nat × Nat × Nat × Nat →
    Nat × Nat × Nat × Nat × Nat × Nat × Nat × Nat
  | (a, b, c, d, e, f, g, h) =>
    let s1 := (rotr32 6 e) ^^^ (rotr32 11 e) ^^^ (rotr32 25 e)
    let ch := (e &&& f) ^^^ ((4294967295 - e) &&& g)
    let t1 := w32 (h + s1 + ch + k + w)
    let s0 := (rotr32 2 a) ^^^ (rotr32 13 a) ^^^ (rotr32 22 a)
    let mj := (a &&& b) ^^^ (a &&& c) ^^^ (b &&& c)
    let t2 := w32 (s0 + mj)
    (w32 (t1 + t2), a, b, c, w32 (d + t1), e, f, g)

/-- Compress one 64-byte chunk into the running hash state. -/
def sha256Chunk (hs : List Nat) (chunk : List Nat) : List Nat :=
  let w := sha256Extend 48 (bytesToWords chunk)
  let init : Nat × Nat × Nat × Nat × Nat × Nat × Nat × Nat :=
    (hs.getD 0 0, hs.getD 1 0, hs.getD 2 0, hs.getD 3 0,
     hs.getD 4 0, hs.getD 5 0, hs.getD 6 0, hs.getD 7 0)
  let fin := (List.range 64).foldl
    (fun st i => sha256Round (w.getD i 0) (sha256K.getD i 0) st) init
  match fin with
  | (a, b, c, d, e, f, g, h) =>
    [w32 (hs.getD 0 0 + a), w32 (hs.getD 1 0 + b), w32 (hs.getD 2 0 + c),
     w32 (hs.getD 3 0 + d), w32 (hs.getD 4 0 + e), w32 (hs.getD 5 0 + f),
     w32 (hs.getD 6 0 + g), w32 (hs.getD 7 0 + h)]

/-- Process the padded message 64 bytes at a time.  The fuel argument (any
bound on the number of chunks) makes the recursion structural, hence
kernel-evaluable. -/
def sha256Blocks : Nat → List Nat → List Nat → List Nat
  | 0, hs, _ => hs
  | _, hs, [] => hs
  | Nat.succ k, hs, msg => sha256Blocks k (sha256Chunk hs (msg.take 64)) (msg.drop 64)

/-- SHA-256 digest of a byte list, as the 256-bit big-endian integer.  This is
exactly Python's `int(hashlib.sha256(data).hexdigest(), 16)`. -/
def sha256Int (s : String) : Nat :=
  let padded := sha256Pad (utf8Bytes s)
  let hs := sha256Blocks padded.length
    [1779033703, 3144134277, 1013904242, 2773480762,
     1359893119, 2600822924, 528734635, 1541459225]
    padded
  hs.foldl (fun acc h => acc * 4294967296 + h) 0

/-! ## Mersenne Twister (model of CPython `random.Random`)

CPython's `random.Random(seed)` seeds an mt19937 generator through
`init_by_array` on the 32-bit little-endian limbs of `abs(seed)`, and draws
via `genrand_uint32`.  The 624-word generator state is packed little-endian
into a single natural number (word `i` occupies bits `[32*i, 32*i+32)`), so
that kernel evaluation uses GMP-sized arithmetic throughout. -/

/-- Word `i` of a packed state. -/
def mtGet (s i : Nat) : Nat := (s >>> (32 * i)) % 4294967296

/-- Replace word `i` of a packed state by `v` (with `v < 2^32`). -/
def mtSet (s i v : Nat) : Nat :=
  s % (1 <<< (32 * i)) + (v <<< (32 * i)) + ((s >>> (32 * (i + 1))) <<< (32 * (i + 1)))

/-- Semantically the identity on `a`; forcing the kernel to evaluate `n`
before continuing keeps kernel evaluation of the long seeding loops below
iterative in stack depth. -/
def forceNat (n : Nat) (a : α) : α := if n = 0 then a else a

/-- Apply `f` at indices `i, i+1, ..., i+k-1` in order. -/
def iterUp (f : Nat → Nat → Nat) : Nat → Nat → Nat → Nat
  | _, 0, a => a
  | i, Nat.succ k, a =>
    let b := f i a
    forceNat b (iterUp f (i + 1) k b)

/-- `init_genrand` from mt19937ar.c: fill the state from a 32-bit seed. -/
def initGenrand (seed : Nat) : Nat :=
  iterUp
    (fun i s =>
      let p := mtGet s (i - 1)
      mtSet s i (w32 (1812433253 * (p ^^^ (p >>> 30)) + i)))
    1 623 (mtSet 0 0 (w32 seed))

/-- First mixing loop of `init_by_array` (runs `max(624, len(key))` times).
Returns the final write index together with the state: the second loop
continues from that index. -/
def ibaLoop1 (key : List Nat) : Nat → Nat × Nat × Nat → Nat × Nat
  | 0, (i, _, s) => (i, s)
  | Nat.succ k, (i, j, s) =>
    let p := mtGet s (i - 1)
    let v := w32 ((mtGet s i ^^^ ((p ^^^ (p >>> 30)) * 1664525)) + key.getD j 0 + j)
    let s := mtSet s i v
    let i := i + 1
    let j := j + 1
    let si : Nat × Nat := if 624 ≤ i then (mtSet s 0 (mtGet s 623), 1) else (s, i)
    forceNat si.1 (ibaLoop1 key k (si.2, if key.length ≤ j then 0 else j, si.1))

/-- Second mixing loop of `init_by_array` (runs 623 times). -/
def ibaLoop2 : Nat → Nat × Nat → Nat
  | 0, (_, s) => s
  | Nat.succ k, (i, s) =>
    let p := mtGet s (i - 1)
    let v := w32 (w32 (mtGet s i ^^^ ((p ^^^ (p >>> 30)) * 1566083941)) + 4294967296 - i)
    let s := mtSet s i v
    let i := i + 1
    let si : Nat × Nat := if 624 ≤ i then (mtSet s 0 (mtGet s 623), 1) else (s, i)
    forceNat si.1 (ibaLoop2 k (si.2, si.1))

/-- `init_by_array` from mt19937ar.c, as used by CPython's `random_seed`. -/
def initByArray (key : List Nat) : Nat :=
  let is := ibaLoop1 key (max 624 key.length) (1, 0, initGenrand 19650218)
  let s := ibaLoop2 623 (is.1, is.2)
  mtSet s 0 2147483648

/-- Generator state: packed word vector plus next-output index. -/
structure MTState where
  mt : Nat
  idx : Nat

/-- One full regeneration pass (the "twist"), updating in place. -/
def mtTwist (s : Nat) : Nat :=
  iterUp
    (fun i s =>
      let y := (mtGet s i &&& 2147483648) ||| (mtGet s ((i + 1) % 624) &&& 2147483647)
      mtSet s i
        ((mtGet s ((i + 397) % 624)) ^^^ (y >>> 1) ^^^ (if y % 2 = 1 then 2567483615 else 0)))
    0 624 s

/-- `genrand_uint32`: twist if exhausted, then output one tempered word. -/
def mtNext (st : MTState) : Nat × MTState :=
  let s := if 624 ≤ st.idx then mtTwist st.mt else st.mt
  let idx := if 624 ≤ st.idx then 0 else st.idx
  let y := mtGet s idx
  let y := y ^^^ (y >>> 11)
  let y := y ^^^ ((y <<< 7) &&& 2636928640)
  let y := y ^^^ ((y <<< 15) &&& 4022730752)
  let y := y ^^^ (y >>> 18)
  (y, ⟨s, idx + 1⟩)

/-- 32-bit little-endian limbs of a positive integer (`fuel` bounds the limb
count; passing the number itself always suffices). -/
def natWords : Nat → Nat → List Nat
  | 0, _ => []
  | Nat.succ k, n => if n = 0 then [] else n % 4294967296 :: natWords k (n >>> 32)

/-- CPython `random_seed` key derivation: the 32-bit little-endian limbs of
the (nonnegative) seed, with `[0]` for zero. -/
def seedKey (n : Nat) : List Nat := if n = 0 then [0] else natWords n n

/-- `random.Random(seed)` for a nonnegative int seed. -/
def mtOfSeed (seed : Nat) : MTState := ⟨initByArray (seedKey seed), 624⟩

/-- `getrandbits(k)` for `0 < k ≤ 32`. -/
def pyGetrandbits (k : Nat) (st : MTState) : Nat × MTState :=
  let w := mtNext st
  (w.1 >>> (32 - k), w.2)

/-- The rejection loop of `Random._randbelow`.  CPython loops until a draw
below `n` appears; each iteration succeeds with probability > 1/2, so 64
iterations fail with probability < 2^-64.  On fuel exhaustion the model
returns 0 (a value in range); no claim depends on that branch. -/
def pyRandbelowLoop (n k : Nat) : Nat → MTState → Nat × MTState
  | 0, st => (0, st)
  | Nat.succ fuel, st =>
    let r := pyGetrandbits k st
    if r.1 < n then r else pyRandbelowLoop n k fuel r.2

/-- `int.bit_length()` (fuelled structural recursion; `n` bounds the bit
count). -/
def bitLenAux : Nat → Nat → Nat
  | 0, _ => 0
  | fuel + 1, n => if n = 0 then 0 else bitLenAux fuel (n >>> 1) + 1

def pyBitLength (n : Nat) : Nat := bitLenAux n n

/-- `Random._randbelow(n)`: `getrandbits(n.bit_length())` with rejection. -/
def pyRandbelow (n : Nat) (st : MTState) : Nat × MTState :=
  if n = 0 then (0, st) else pyRandbelowLoop n (pyBitLength n) 64 st

/-- `Random.randint(a, b)` = `randrange(a, b+1)` = `a + _randbelow(b+1-a)`. -/
def pyRandint (a b : Nat) (st : MTState) : Nat × MTState :=
  let r := pyRandbelow (b + 1 - a) st
  (a + r.1, r.2)

/-- `Random.random()`: a 53-bit uniform draw in `[0, 1)`, exact as a rational
(every CPython output `(a*2^26+b)/2^53` is an exact binary64 value). -/
def pyRandom (st : MTState) : ℚ × MTState :=
  let a := mtNext st
  let b := mtNext a.2
  (qdiv (((a.1 >>> 5) * 67108864 + (b.1 >>> 6) : Nat) : ℚ) 9007199254740992, b.2)

/-- `Random.uniform(a, b)` = `a + (b-a)*random()`. -/
def pyUniform (a b : ℚ) (st : MTState) : ℚ × MTState :=
  let r := pyRandom st
  (qadd a (qmul (qsub b a) r.1), r.2)

/-- The generator the simulator builds for a task:
`random.Random(int(hashlib.sha256(task.encode()).hexdigest(), 16))`. -/
def rngOfTask (task : String) : MTState := mtOfSeed (sha256Int task)

/-! ## String helpers (models of `str.lower` and Python's `in` operator)

`Char.toLower` lower-cases exactly the ASCII letters, which agrees with
Python `str.lower()` on every keyword table and scenario string in the
specification (all ASCII). -/

/-- Python `str.lower()` (ASCII model). -/
def strLower (s : String) : String := ⟨s.data.map Char.toLower⟩

/-- `startsW pat xs`: `xs` begins with `pat`. -/
def startsW [DecidableEq α] : List α → List α → Bool
  | [], _ => true
  | _ :: _, [] => false
  | p :: ps, x :: xs => p = x && startsW ps xs

/-- `hasSub pat xs`: `pat` occurs contiguously in `xs`. -/
def hasSub [DecidableEq α] (pat : List α) : List α → Bool
  | [] => startsW pat []
  | x :: xs => startsW pat (x :: xs) || hasSub pat xs

/-- Python `pat in hay` on strings: contiguous-substring test. -/
def strContains (hay pat : String) : Bool := hasSub pat.data hay.data

/-! ## Engine registry and board presets (src/cli/omnicoder_agi.py)

`AGIEngine` carries `name, quality, domain, specialty, traits, capabilities,
tests_passed`; the routed pipeline reads only the registry's key order, key
membership and `quality`, so the registry is embedded as the ordered
association list of `(name, quality)`.  `AGIBoard` likewise drops the
presentation-only `description` and `capabilities` fields, which the pipeline
only ever prints. -/

/-- `FALLBACK_ENGINES`: the static engine registry, in insertion order. -/
def FALLBACK_ENGINES : List (String × ℚ) :=
  [("PlanVoice-G4-G3-203", mkRat 9936 10000),
   ("EvolveChart-G4-G3-171", mkRat 9928 10000),
   ("ImprovePlan-G4-G3-172", mkRat 9935 10000),
   ("LinguaChart-G4-G3-192", mkRat 9928 10000),
   ("VirtueArchive-G4-G3-152", mkRat 9930 10000),
   ("UniteSee-G4-G3-135", mkRat 9928 10000),
   ("PerceiveRise-G4-G3-185", mkRat 9924 10000),
   ("RetainGood-G4-G3-159", mkRat 9927 10000),
   ("WiseJust-G4-G3-119", mkRat 9923 10000),
   ("MuseEthics-G4-G3-142", mkRat 9923 10000)]

structure AGIBoard where
  name : String
  primary_engine : String
  supporting_engines : List String
  quality : ℚ
deriving DecidableEq

/-- `BOARD_PRESETS`: the static board registry, in insertion order. -/
def BOARD_PRESETS : List (String × AGIBoard) :=
  [("auto", ⟨"Auto-Select", "", [], mkRat 99 100⟩),
   ("code-architect",
     ⟨"Code Architecture", "PlanVoice-G4-G3-203",
      ["EvolveChart-G4-G3-171", "ImprovePlan-G4-G3-172"], mkRat 9936 10000⟩),
   ("code-generator",
     ⟨"Code Generator", "ImprovePlan-G4-G3-172",
      ["PlanVoice-G4-G3-203", "LinguaChart-G4-G3-192"], mkRat 9935 10000⟩),
   ("code-reviewer",
     ⟨"Code Review", "PerceiveRise-G4-G3-185",
      ["VirtueArchive-G4-G3-152", "RetainGood-G4-G3-159"], mkRat 9928 10000⟩),
   ("bug-detector",
     ⟨"Bug Detection", "PerceiveRise-G4-G3-185",
      ["VirtueArchive-G4-G3-152", "WiseJust-G4-G3-119"], mkRat 9924 10000⟩),
   ("unit-testing",
     ⟨"Unit Testing", "PerceiveRise-G4-G3-185",
      ["ImprovePlan-G4-G3-172", "VirtueArchive-G4-G3-152"], mkRat 9920 10000⟩),
   ("integration-testing",
     ⟨"Integration Testing", "UniteSee-G4-G3-135",
      ["PerceiveRise-G4-G3-185", "ImprovePlan-G4-G3-172"], mkRat 9915 10000⟩),
   ("doc-generator",
     ⟨"Documentation", "LinguaChart-G4-G3-192",
      ["WiseJust-G4-G3-119", "RetainGood-G4-G3-159"], mkRat 9928 10000⟩),
   ("security",
     ⟨"Security Analysis", "VirtueArchive-G4-G3-152",
      ["PerceiveRise-G4-G3-185", "WiseJust-G4-G3-119"], mkRat 9930 10000⟩),
   ("optimization",
     ⟨"Optimization", "ImprovePlan-G4-G3-172",
      ["EvolveChart-G4-G3-171", "PerceiveRise-G4-G3-185"], mkRat 9933 10000⟩),
   ("refactoring",
     ⟨"Refactoring", "EvolveChart-G4-G3-171",
      ["PlanVoice-G4-G3-203", "MuseEthics-G4-G3-142"], mkRat 9926 10000⟩),
   ("test-verifier",
     ⟨"Test Verifier", "VirtueArchive-G4-G3-152",
      ["PerceiveRise-G4-G3-185", "WiseJust-G4-G3-119"], mkRat 9928 10000⟩),
   ("quality-verifier",
     ⟨"Quality Verifier", "PerceiveRise-G4-G3-185",
      ["VirtueArchive-G4-G3-152", "ImprovePlan-G4-G3-172"], mkRat 9927 10000⟩),
   ("mcp-selector",
     ⟨"MCP Selection", "UniteSee-G4-G3-135",
      ["PlanVoice-G4-G3-203", "WiseJust-G4-G3-119"], mkRat 9928 10000⟩),
   ("continuous-learner",
     ⟨"Continuous Learning", "ImprovePlan-G4-G3-172",
      ["WiseJust-G4-G3-119", "RetainGood-G4-G3-159"], mkRat 9935 10000⟩),
   ("hyperparameter-tuner",
     ⟨"Hyperparameter Tuning", "ImprovePlan-G4-G3-172",
      ["EvolveChart-G4-G3-171", "PerceiveRise-G4-G3-185"], mkRat 9933 10000⟩)]

/-- `self.engines[e].quality` as an optional lookup (`None` = key absent). -/
def engineQuality (engines : List (String × ℚ)) (e : String) : Option ℚ :=
  (engines.find? (fun p => p.1 = e)).map (·.2)

/-! ## Keyword router (`OmniCoderAGI.select_board`) -/

/-- `select_board`: transcription of the ordered if-chain of the source. -/
def select_board (task : String) : String :=
  let t := strLower task
  if ["bug", "error", "fix", "crash"].any (strContains t) then "bug-detector"
  else if ["test", "verify", "qa"].any (strContains t) then "unit-testing"
  else if ["create", "build", "generate", "implement"].any (strContains t) then "code-generator"
  else if ["document", "comment", "explain", "readme"].any (strContains t) then "doc-generator"
  else if ["architecture", "design", "structure"].any (strContains t) then "code-architect"
  else if ["security", "vulnerability", "auth"].any (strContains t) then "security"
  else if ["optimize", "performance", "speed"].any (strContains t) then "optimization"
  else if ["refactor", "clean", "restructure"].any (strContains t) then "refactoring"
  else if ["review", "check", "audit"].any (strContains t) then "code-reviewer"
  else if ["integrate", "api", "connect"].any (strContains t) then "integration-testing"
  else "auto"

/-- The router's rule table in source order, as the specification describes
it: an ordered list of (keyword-set, board-key) pairs. -/
def ROUTER_RULES : List (List String × String) :=
  [(["bug", "error", "fix", "crash"], "bug-detector"),
   (["test", "verify", "qa"], "unit-testing"),
   (["create", "build", "generate", "implement"], "code-generator"),
   (["document", "comment", "explain", "readme"], "doc-generator"),
   (["architecture", "design", "structure"], "code-architect"),
   (["security", "vulnerability", "auth"], "security"),
   (["optimize", "performance", "speed"], "optimization"),
   (["refactor", "clean", "restructure"], "refactoring"),
   (["review", "check", "audit"], "code-reviewer"),
   (["integrate", "api", "connect"], "integration-testing")]

/-- The specification's wording of the router: lower-case the text, return
the key of the first rule in `ROUTER_RULES` whose keyword-set hits the text,
else `"auto"`. -/
def selectBoardFirstMatch (task : String) : String :=
  let t := strLower task
  match ROUTER_RULES.find? (fun r => r.1.any (strContains t)) with
  | some r => r.2
  | none => "auto"

/-! ## Engine resolution (`OmniCoderAGI.get_engines_for_board`) -/

/-- `get_engines_for_board`: primary + supporting engines filtered to the
registry; the first three registry keys for `"auto"`, unknown boards, and the
empty-result fallback. -/
def get_engines_for_board (engines : List (String × ℚ))
    (boards : List (String × AGIBoard)) (board_name : String) : List String :=
  match boards.find? (fun p => p.1 = board_name) with
  | none => (engines.map (·.1)).take 3
  | some p =>
    if board_name = "auto" then (engines.map (·.1)).take 3
    else
      let b := p.2
      let es :=
        (if b.primary_engine ≠ "" && (engineQuality engines b.primary_engine).isSome
         then [b.primary_engine] else []) ++
        b.supporting_engines.filter (fun e => (engineQuality engines e).isSome)
      if es.isEmpty then (engines.map (·.1)).take 3 else es

/-! ## Simulated execution (`OmniCoderAGI._execute_task`) -/

inductive TaskStatus where
  | pending
  | in_progress
  | completed
  | failed
  | verified
deriving DecidableEq

/-- `TaskResult`, dropping the presentation-only `output`, `left_out` and
`left_out_reasons` fields (written, never read by the pipeline). -/
structure TaskResult where
  task_id : String
  status : TaskStatus
  board_used : String
  engines_used : List String
  confidence : ℚ
  files_changed : List String
  tests_passed : Int
  tests_total : Nat
  suggestions : List String
deriving DecidableEq

/-- `sum(self.engines[e].quality for e in engines if e in self.engines)`. -/
def sumQualities (engines : List (String × ℚ)) (engs : List String) : ℚ :=
  qsum (engs.filterMap (engineQuality engines))

/-- `avg_quality` with the `max(len(engines), 1)` denominator. -/
def avgQuality (engines : List (String × ℚ)) (engs : List String) : ℚ :=
  qdiv (sumQualities engines engs) ((max engs.length 1 : Nat) : ℚ)

/-- The fixed advisory pool of `_execute_task`. -/
def SUGGESTION_POOL : List String :=
  ["Consider adding more edge case tests",
   "Review error handling patterns",
   "Update documentation for new features"]

/-- The four pseudo-random draws of one `_execute_task` call, in source
order, from the task-seeded generator. -/
def simDraws (task : String) : Nat × Nat × ℚ × Nat :=
  let rng0 := rngOfTask task
  let d1 := pyRandint 1 5 rng0
  let d2 := pyRandint 5 20 d1.2
  let d3 := pyUniform (mkRat (-5) 100) (mkRat 5 100) d2.2
  let d4 := pyRandint 1 3 d3.2
  (d1.1, d2.1, d3.1, d4.1)

/-- `OmniCoderAGI._execute_task`: seeds a generator from the SHA-256 of the
task text and fabricates the result. -/
def execute_task (engines : List (String × ℚ)) (task_id task board : String)
    (engs : List String) : TaskResult :=
  let rng0 := rngOfTask task
  let avg := avgQuality engines engs
  let confidence := qmul avg 100
  let d1 := pyRandint 1 5 rng0
  let files := (List.range d1.1).map (fun i => "src/component_" ++ toString i ++ ".py")
  let d2 := pyRandint 5 20 d1.2
  let d3 := pyUniform (mkRat (-5) 100) (mkRat 5 100) d2.2
  let tp0 := pyTrunc (qmul ((d2.1 : Nat) : ℚ) (qadd avg d3.1))
  let tp := min tp0 (d2.1 : Int)
  let d4 := pyRandint 1 3 d3.2
  { task_id := task_id, status := TaskStatus.completed, board_used := board,
    engines_used := engs, confidence := pyRound2 confidence,
    files_changed := files, tests_passed := tp, tests_total := d2.1,
    suggestions := SUGGESTION_POOL.take d4.1 }

/-! ## Verification, learning, task processing -/

/-- First-occurrence deduplication, modelling `list(set(...))` of
`_verify_result` up to order.  Python's set-iteration order is unspecified;
the source only takes the sum and the length of the result, and both are
invariant under reordering of the (duplicate-free) result. -/
def dedupFirst (seen : List String) : List String → List String
  | [] => []
  | x :: xs =>
    if seen.contains x then dedupFirst seen xs
    else x :: dedupFirst (x :: seen) xs

/-- Mutable in-process state of `OmniCoderAGI` that the pipeline reads:
registries and the running quality scalar.  File logs are modelled in the
`JSONLogger` section; the wall clock and uuid-style task ids are inputs. -/
structure AgentState where
  engines : List (String × ℚ)
  boards : List (String × AGIBoard)
  current_quality : ℚ
  target_quality : ℚ
deriving DecidableEq

/-- `OmniCoderAGI.__init__` with no engine config file: fallback registries,
`current_quality = 0.9927`, `target_quality = 1.0`. -/
def mkOmniCoderAGI : AgentState :=
  ⟨FALLBACK_ENGINES, BOARD_PRESETS, mkRat 9927 10000, 1⟩

/-- `OmniCoderAGI._verify_result`: average quality over the deduplicated
union of the two verifier boards' engines; promote to `verified` above
0.99. -/
def verify_result (engines : List (String × ℚ)) (boards : List (String × AGIBoard))
    (r : TaskResult) : TaskResult :=
  let verifier_engines := get_engines_for_board engines boards "test-verifier"
  let quality_engines := get_engines_for_board engines boards "quality-verifier"
  let all_verifiers := dedupFirst [] (verifier_engines ++ quality_engines)
  let avg := qdiv (sumQualities engines all_verifiers) ((max all_verifiers.length 1 : Nat) : ℚ)
  if mkRat 99 100 < avg then { r with status := TaskStatus.verified } else r

/-- The quality nudge of `OmniCoderAGI._track_learning` (the log write is
modelled in the logger section; this is the whole effect on `AgentState`). -/
def track_learning (st : AgentState) : AgentState :=
  if st.current_quality < st.target_quality then
    { st with current_quality := min st.target_quality (qadd st.current_quality (mkRat 1 10000)) }
  else st

/-- `OmniCoderAGI.process_task`: route, resolve engines, simulate, optionally
verify, track learning.  `task_id` models `generate_task_id()` (wall-clock
derived); the session-log append writes derived data and is not read back. -/
def process_task (st : AgentState) (task_id task board : String) (verify : Bool) :
    TaskResult × AgentState :=
  let board := if board = "auto" then select_board task else board
  let engs := get_engines_for_board st.engines st.boards board
  let r := execute_task st.engines task_id task board engs
  let r := if verify then verify_result st.engines st.boards r else r
  (r, track_learning st)

/-! ## Training (`OmniCoderAGI.train_engines`) -/

/-- The default problem list used when `problems` is falsy. -/
def DEFAULT_TRAINING_PROBLEMS : List String :=
  ["Implement a distributed cache system",
   "Create a GraphQL API with authentication",
   "Build a real-time collaboration feature",
   "Optimize database query performance",
   "Add comprehensive error handling"]

/-- The fixed `intensity_multiplier` table. -/
def INTENSITY_MULTIPLIER : List (String × ℚ) :=
  [("low", mkRat 1 10000), ("medium", mkRat 5 10000), ("high", mkRat 1 1000), ("extreme", mkRat 5 1000)]

/-- `intensity_multiplier.get(intensity, 0.001)`. -/
def multiplierOf (intensity : String) : ℚ :=
  ((INTENSITY_MULTIPLIER.find? (fun x => x.1 = intensity)).map (·.2)).getD (mkRat 1 1000)

/-- `TrainingMetrics`, dropping the wall-clock `duration_seconds`, the
constant `hyperparameters_tuned` and the printed `improvements` list. -/
structure TrainingMetrics where
  quality_before : ℚ
  quality_after : ℚ
  tests_passed : Int
  tests_total : Nat
deriving DecidableEq

/-- `OmniCoderAGI.train_engines`: one `process_task(problem, verify=True)`
per problem (accumulating `tests_passed`), then a single final quality
increment `min(target - current, multiplier * len(problems))`. -/
def train_engines (st : AgentState) (problems0 : List String) (intensity : String) :
    TrainingMetrics × AgentState :=
  let quality_before := st.current_quality
  let problems := if problems0.isEmpty then DEFAULT_TRAINING_PROBLEMS else problems0
  let tests_total := problems.length * 10
  let stp := problems.foldl
    (fun (acc : AgentState × Int) p =>
      let rs := process_task acc.1 "" p "auto" true
      (rs.2, acc.2 + rs.1.tests_passed))
    (st, 0)
  let st1 := stp.1
  let quality_improvement :=
    min (qsub st1.target_quality st1.current_quality)
        (qmul (multiplierOf intensity) ((problems.length : Nat) : ℚ))
  let st2 := { st1 with current_quality := qadd st1.current_quality quality_improvement }
  ({ quality_before := pyRound4 quality_before,
     quality_after := pyRound4 st2.current_quality,
     tests_passed := stp.2, tests_total := tests_total }, st2)

/-! ## JSON documents (model of `json.dumps` / `json.loads`)

JSON values as the logger and settings store use them.  Numeric leaves are
restricted to integers: every number the logger writes in the claims below is
embedded through this type, and float-repr printing is outside the model.
Recursion is fuelled with depth 1000, mirroring CPython's recursion limit on
`json.dumps`/`json.loads`; no value of depth below 1000 ever hits the fuel. -/

inductive JValue where
  | null
  | bool (b : Bool)
  | int (n : Int)
  | str (s : String)
  | arr (xs : List JValue)
  | obj (ms : List (String × JValue))

/-- First-key lookup, modelling Python dict lookup (keys are unique in any
dict-built object, so first occurrence is the binding). -/
def objLookup (ms : List (String × JValue)) (k : String) : Option JValue :=
  (ms.find? (fun p => p.1 = k)).map (·.2)

/-- Python dict assignment `d[k] = v`: replace in place, else append. -/
def objSet : List (String × JValue) → String → JValue → List (String × JValue)
  | [], k, v => [(k, v)]
  | (k', v') :: rest, k, v =>
    if k' = k then (k, v) :: rest else (k', v') :: objSet rest k v

def JValue.isObj : JValue → Bool
  | .obj _ => true
  | _ => false

/-- Lower-case hex digit. -/
def hexDigit (n : Nat) : Char :=
  if n < 10 then Char.ofNat (48 + n) else Char.ofNat (87 + n)

def hex4 (n : Nat) : List Char :=
  [hexDigit (n / 4096 % 16), hexDigit (n / 256 % 16), hexDigit (n / 16 % 16), hexDigit (n % 16)]

/-- `\uXXXX` escape (surrogate pair above the BMP), as `json.dumps` with its
default `ensure_ascii=True` emits. -/
def uEscape (c : Char) : List Char :=
  let n := c.toNat
  if n < 65536 then '\\' :: 'u' :: hex4 n
  else
    let m := n - 65536
    ('\\' :: 'u' :: hex4 (55296 + m / 1024)) ++ ('\\' :: 'u' :: hex4 (56320 + m % 1024))

/-- String-character escaping of `json.dumps` (default `ensure_ascii`). -/
def escChar (c : Char) : List Char :=
  if c = '"' then ['\\', '"']
  else if c = '\\' then ['\\', '\\']
  else if c = '\n' then ['\\', 'n']
  else if c = '\t' then ['\\', 't']
  else if c = '\r' then ['\\', 'r']
  else if c = Char.ofNat 8 then ['\\', 'b']
  else if c = Char.ofNat 12 then ['\\', 'f']
  else if c.toNat < 32 || 127 ≤ c.toNat then uEscape c
  else [c]

/-- JSON string literal. -/
def strLit (s : String) : List Char := '"' :: (s.data.map escChar).flatten ++ ['"']

/-- Comma-separated join with `json.dumps`'s default `", "` separator. -/
def joinComma : List (List Char) → List Char
  | [] => []
  | [x] => x
  | x :: y :: rest => x ++ ',' :: ' ' :: joinComma (y :: rest)

/-- `json.dumps` (depth-fuelled). -/
def jdumpsF : Nat → JValue → List Char
  | 0, _ => []
  | _ + 1, .null => ['n', 'u', 'l', 'l']
  | _ + 1, .bool true => ['t', 'r', 'u', 'e']
  | _ + 1, .bool false => ['f', 'a', 'l', 's', 'e']
  | _ + 1, .int n => (toString n).data
  | _ + 1, .str s => strLit s
  | d + 1, .arr xs => '[' :: joinComma (xs.map (jdumpsF d)) ++ [']']
  | d + 1, .obj ms =>
    '\x7b' :: joinComma (ms.map (fun kv => strLit kv.1 ++ ':' :: ' ' :: jdumpsF d kv.2)) ++ ['\x7d']

def jdumps (v : JValue) : String := ⟨jdumpsF 1000 v⟩

/-- JSON whitespace (the only whitespace `json.loads` skips). -/
def isJsonWs (c : Char) : Bool := c = ' ' || c = '\t' || c = '\n' || c = '\r'

def skipWs (cs : List Char) : List Char := cs.dropWhile isJsonWs

def hexVal (c : Char) : Option Nat :=
  if '0' ≤ c && c ≤ '9' then some (c.toNat - 48)
  else if 'a' ≤ c && c ≤ 'f' then some (c.toNat - 87)
  else if 'A' ≤ c && c ≤ 'F' then some (c.toNat - 55)
  else none

def parseHex4 : List Char → Option (Nat × List Char)
  | a :: b :: c :: d :: rest => do
    let va ← hexVal a
    let vb ← hexVal b
    let vc ← hexVal c
    let vd ← hexVal d
    some (va * 4096 + vb * 256 + vc * 16 + vd, rest)
  | _ => none

/-- Body of a JSON string after the opening quote, decoding escapes
(surrogate pairs recombined as CPython does). -/
def parseStrBody : Nat → List Char → Option (List Char × List Char)
  | 0, _ => none
  | _ + 1, [] => none
  | fuel + 1, c :: rest =>
    if c = '"' then some ([], rest)
    else if c = '\\' then
      match rest with
      | [] => none
      | e :: rest' =>
        let dec : Option (Char × List Char) :=
          if e = '"' then some ('"', rest')
          else if e = '\\' then some ('\\', rest')
          else if e = '/' then some ('/', rest')
          else if e = 'n' then some ('\n', rest')
          else if e = 't' then some ('\t', rest')
          else if e = 'r' then some ('\r', rest')
          else if e = 'b' then some (Char.ofNat 8, rest')
          else if e = 'f' then some (Char.ofNat 12, rest')
          else if e = 'u' then
            match parseHex4 rest' with
            | none => none
            | some (n, rest2) =>
              if 55296 ≤ n && n < 56320 then
                match rest2 with
                | '\\' :: 'u' :: rest3 =>
                  match parseHex4 rest3 with
                  | some (n2, rest4) =>
                    if 56320 ≤ n2 && n2 < 57344 then
                      some (Char.ofNat (65536 + (n - 55296) * 1024 + (n2 - 56320)), rest4)
                    else none
                  | none => none
                | _ => none
              else if 56320 ≤ n && n < 57344 then none
              else some (Char.ofNat n, rest2)
          else none
        match dec with
        | none => none
        | some (ch, rest2) =>
          match parseStrBody fuel rest2 with
          | some (body, rest3) => some (ch :: body, rest3)
          | none => none
    else if c.toNat < 32 then none
    else
      match parseStrBody fuel rest with
      | some (body, rest2) => some (c :: body, rest2)
      | none => none

def isDigit (c : Char) : Bool := '0' ≤ c && c ≤ '9'

def digitsToNat (acc : Nat) : List Char → Nat
  | [] => acc
  | c :: rest => digitsToNat (acc * 10 + (c.toNat - 48)) rest

/-- JSON integer literal: optional minus, no leading zeros, and no fraction
or exponent following (floats are outside the model, see above). -/
def parseIntLit (cs : List Char) : Option (Int × List Char) :=
  let (neg, cs') := match cs with
    | '-' :: rest => (true, rest)
    | _ => (false, cs)
  let ds := cs'.takeWhile isDigit
  let rest := cs'.dropWhile isDigit
  if ds.isEmpty then none
  else if ds.length > 1 && ds.headD '0' = '0' then none
  else
    match rest with
    | '.' :: _ => none
    | 'e' :: _ => none
    | 'E' :: _ => none
    | _ =>
      let n : Int := digitsToNat 0 ds
      some (if neg then -n else n, rest)

def expectChars : List Char → List Char → Option (List Char)
  | [], cs => some cs
  | p :: ps, c :: cs => if p = c then expectChars ps cs else none
  | _ :: _, [] => none

mutual

/-- `json.loads` value parser (depth-fuelled like CPython's recursion). -/
def parseVal : Nat → List Char → Option (JValue × List Char)
  | 0, _ => none
  | fuel + 1, cs =>
    match skipWs cs with
    | [] => none
    | c :: rest =>
      if c = 'n' then (expectChars ['u', 'l', 'l'] rest).map (fun r => (.null, r))
      else if c = 't' then (expectChars ['r', 'u', 'e'] rest).map (fun r => (.bool true, r))
      else if c = 'f' then (expectChars ['a', 'l', 's', 'e'] rest).map (fun r => (.bool false, r))
      else if c = '"' then
        match parseStrBody 100000 rest with
        | some (body, rest') => some (.str ⟨body⟩, rest')
        | none => none
      else if c = '[' then
        match skipWs rest with
        | ']' :: rest' => some (.arr [], rest')
        | cs' => (parseArrItems fuel cs').map (fun (xs, r) => (.arr xs, r))
      else if c = '\x7b' then
        match skipWs rest with
        | '\x7d' :: rest' => some (.obj [], rest')
        | cs' => (parseObjItems fuel cs').map (fun (ms, r) => (.obj ms, r))
      else (parseIntLit (c :: rest)).map (fun p => (.int p.1, p.2))

def parseArrItems : Nat → List Char → Option (List JValue × List Char)
  | 0, _ => none
  | fuel + 1, cs => do
    let (v, rest) ← parseVal fuel cs
    match skipWs rest with
    | ',' :: rest' => (parseArrItems fuel rest').map (fun (xs, r) => (v :: xs, r))
    | ']' :: rest' => some ([v], rest')
    | _ => none

def parseObjItems : Nat → List Char → Option (List (String × JValue) × List Char)
  | 0, _ => none
  | fuel + 1, cs =>
    match skipWs cs with
    | '"' :: rest =>
      match parseStrBody 100000 rest with
      | none => none
      | some (key, rest') =>
        match skipWs rest' with
        | ':' :: rest2 => do
          let (v, rest3) ← parseVal fuel rest2
          match skipWs rest3 with
          | ',' :: rest4 => (parseObjItems fuel rest4).map (fun (ms, r) => ((⟨key⟩, v) :: ms, r))
          | '\x7d' :: rest4 => some ([(⟨key⟩, v)], rest4)
          | _ => none
        | _ => none
    | _ => none

end


/-- `json.loads`: a full parse of the input with only trailing whitespace. -/
def jloads (s : String) : Option JValue :=
  match parseVal 1000 s.data with
  | some (v, rest) => if (skipWs rest).isEmpty then some v else none
  | none => none

/-- Python `str.strip()` (ASCII-whitespace model; log lines produced by the
logger contain none of the rarer Unicode whitespace). -/
def pyStrip (s : String) : String :=
  ⟨((s.data.dropWhile isJsonWs).reverse.dropWhile isJsonWs).reverse⟩

/-! ## Append-only logger (`JSONLogger`)

A log file is its list of lines (the `"\n"` terminators implicit; `dumps`
output never contains a raw newline, every write appends one line). -/

/-- The payload `{"timestamp": iso_now(), **entry}`: Python dict-literal
merge, caller keys overriding in place. -/
def mkPayload (now : String) (entry : List (String × JValue)) : List (String × JValue) :=
  entry.foldl (fun acc kv => objSet acc kv.1 kv.2) [("timestamp", JValue.str now)]

/-- `JSONLogger.append`: write the payload as one JSON line; `now` models
`iso_now()`.  Returns the new file and the stored payload. -/
def logger_append (file : List String) (now : String) (entry : List (String × JValue)) :
    List String × List (String × JValue) :=
  let payload := mkPayload now entry
  (file ++ [jdumps (JValue.obj payload)], payload)

/-- A sequence of `append` calls from given timestamps and entries. -/
def appendAll (file : List String) : List (String × List (String × JValue)) → List String
  | [] => file
  | (now, e) :: rest => appendAll (logger_append file now e).1 rest

/-- Python `lines[-limit:]` for a nonnegative `limit` (note `lines[-0:]` is
the whole list). -/
def pyLastSlice (limit : Nat) (xs : List α) : List α :=
  if limit = 0 then xs else xs.drop (xs.length - limit)

/-- The parse-else-skip loop of `JSONLogger.tail`. -/
def tailLoop : List String → List JValue
  | [] => []
  | line :: rest =>
    let l := pyStrip line
    if l = "" then tailLoop rest
    else
      match jloads l with
      | some e => e :: tailLoop rest
      | none => tailLoop rest

/-- `JSONLogger.tail`: the last `limit` raw lines, parsed, silently skipping
blank and malformed lines.  `json.JSONDecodeError` is modelled by `jloads`
returning `none`; every line reaches either the parsed list or a `continue`,
so the model is total — no exception escapes. -/
def logger_tail (file : List String) (limit : Nat) : List JValue :=
  tailLoop (pyLastSlice limit file)

/-- The specification's amended description of `tail`: the well-formed
entries among the last `limit` raw lines. -/
def wellFormedEntries (lines : List String) : List JValue :=
  lines.filterMap (fun line =>
    let l := pyStrip line
    if l = "" then none else jloads l)

/-! ## Settings store (`SettingsManager.get` / `SettingsManager.set`) -/

/-- Python `key.split(".")`. -/
def splitDotAux : List Char → List Char → List String
  | acc, [] => [⟨acc.reverse⟩]
  | acc, c :: cs => if c = '.' then ⟨acc.reverse⟩ :: splitDotAux [] cs else splitDotAux (c :: acc) cs

def splitDot (s : String) : List String := splitDotAux [] s.data

/-- The lookup loop of `SettingsManager.get`: at each level descend through
a mapping with `value.get(k, default)`, bail out with `default` on a
non-mapping. -/
def settings_get_loop (default : JValue) : JValue → List String → JValue
  | v, [] => v
  | v, k :: ks =>
    match v with
    | .obj m => settings_get_loop default ((objLookup m k).getD default) ks
    | _ => default

/-- `SettingsManager.get(key, default)`. -/
def settings_get (settings : List (String × JValue)) (key : String) (default : JValue) : JValue :=
  settings_get_loop default (.obj settings) (splitDot key)

/-- Split a nonempty key list into `keys[:-1]` and `keys[-1]`. -/
def splitLastKey : List String → Option (List String × String)
  | [] => none
  | [k] => some ([], k)
  | k :: ks => (splitLastKey ks).map (fun p => (k :: p.1, p.2))

/-- The creation/descent loop of `SettingsManager.set`: create missing
intermediate dicts; descending into an existing non-dict raises in Python
(`TypeError`), modelled as `none`. -/
def settings_set_loop : List (String × JValue) → List String → String → JValue →
    Option (List (String × JValue))
  | m, [], lastK, v => some (objSet m lastK v)
  | m, k :: ks, lastK, v =>
    match objLookup m k with
    | none => (settings_set_loop [] ks lastK v).map (fun sub => objSet m k (.obj sub))
    | some (.obj sub) => (settings_set_loop sub ks lastK v).map (fun sub' => objSet m k (.obj sub'))
    | some _ => none

/-- `SettingsManager.set(key, value)` on the in-memory document (the
whole-document disk rewrite of `save()` carries no information the claims
read). -/
def settings_set (settings : List (String × JValue)) (key : String) (v : JValue) :
    Option (List (String × JValue)) :=
  match splitLastKey (splitDot key) with
  | none => none
  | some (ks, lastK) => settings_set_loop settings ks lastK v

/-- The specification's "unset path" reading: strict descent through
mappings only, `none` on a missing key or a non-mapping. -/
def strictGet : JValue → List String → Option JValue
  | v, [] => some v
  | .obj m, k :: ks =>
    match objLookup m k with
    | some v => strictGet v ks
    | none => none
  | _, _ :: _ => none

/-- The engine list every `"auto"`-routed task receives with the built-in
registry: the first three registry keys. -/
def autoEngines : List String := get_engines_for_board FALLBACK_ENGINES BOARD_PRESETS "auto"

/-! ## Training quality bookkeeping -/

/-- The quality update of one `_track_learning` call, as a function of the
target and the current scalar. -/
def trackStep (target q : ℚ) : ℚ :=
  if q < target then min target (qadd q (mkRat 1 10000)) else q

/-- `n` successive `_track_learning` quality updates. -/
def trackIter (target : ℚ) : Nat → ℚ → ℚ
  | 0, q => q
  | n + 1, q => trackIter target n (trackStep target q)

/-- The quality values after each of `n` successive `_track_learning`
updates. -/
def trackScan (target : ℚ) : Nat → ℚ → List ℚ
  | 0, _ => []
  | n + 1, q => trackStep target q :: trackScan target n (trackStep target q)

/-- The quality scalar `train_engines` leaves behind: the per-problem
nudges, then the single final increment. -/
def trainQualityAfter (st : AgentState) (ps : List String) (it : String) : ℚ :=
  let problems := if ps.isEmpty then DEFAULT_TRAINING_PROBLEMS else ps
  let qn := trackIter st.target_quality problems.length st.current_quality
  qadd qn (min (qsub st.target_quality qn) (qmul (multiplierOf it) (problems.length : ℚ)))

/-- Every quality value the scalar takes during one `train_engines` call, in
order: after each per-problem `_track_learning` nudge, then after the final
increment. -/
def trainTrajectory (st : AgentState) (ps : List String) (it : String) : List ℚ :=
  trackScan st.target_quality (if ps.isEmpty then DEFAULT_TRAINING_PROBLEMS else ps).length
      st.current_quality ++
    [trainQualityAfter st ps it]

/-- The concatenated quality trajectory of a sequence of `train_engines`
calls, each starting from the state the previous call left behind. -/
def trainSeqTrajectory (st : AgentState) : List (List String × String) → List ℚ
  | [] => []
  | c :: rest =>
    trainTrajectory st c.1 c.2 ++ trainSeqTrajectory (train_engines st c.1 c.2).2 rest

/-- The state after a sequence of `train_engines` calls. -/
def runTrains (st : AgentState) : List (List String × String) → AgentState
  | [] => st
  | c :: rest => runTrains (train_engines st c.1 c.2).2 rest

/-! # Theorems -/

theorem qadd_eq (a b : ℚ) : qadd a b = a + b := (Rat.add_def' a b).symm

theorem qsub_eq (a b : ℚ) : qsub a b = a - b := (Rat.sub_def' a b).symm

theorem qmul_eq (a b : ℚ) : qmul a b = a * b := by
  rw [qmul, Rat.mul_def, Rat.normalize_eq_mkRat]

theorem qdiv_eq (a b : ℚ) : qdiv a b = a / b := (Rat.div_def' a b).symm

theorem qneg_eq (a : ℚ) : qneg a = -a := (Rat.neg_def a).symm

theorem qsum_eq (l : List ℚ) : qsum l = l.sum := by
  induction l with
  | nil => rfl
  | cons x xs ih => rw [qsum, qadd_eq, ih, List.sum_cons]

/-- The Batteries floor agrees with the Mathlib floor. -/
theorem ratFloor_eq_floor (q : ℚ) : Rat.floor q = ⌊q⌋ :=
  (Rat.floor_def' q).trans Rat.floor_def.symm

/-- `roundQ` agrees with Mathlib's `round`. -/
theorem roundQ_eq_round (q : ℚ) : roundQ q = round q := by
  rw [roundQ, qadd_eq, ratFloor_eq_floor, round_eq]
  norm_num

example : sha256Int "hello" =
    20329878786436204988385760252021328656300425018755239228739303522659023427620 := by
  decide

theorem forceNat_eq (n : Nat) (a : α) : forceNat n a = a := by
  unfold forceNat
  split <;> rfl

/-- Validation against CPython: the first four `genrand_uint32` outputs of
`random.Random(int(sha256(b"hello").hexdigest(), 16))` are
887690866, 1531581337, 2968804381, 1806014477. -/
example :
    (let st0 := rngOfTask "hello"
     let (w0, st1) := mtNext st0
     let (w1, st2) := mtNext st1
     let (w2, st3) := mtNext st2
     let (w3, _) := mtNext st3
     [w0, w1, w2, w3]) = [887690866, 1531581337, 2968804381, 1806014477] := by
  decide

/-! # Supporting lemmas -/

/-- The rejection loop of `_randbelow` always lands strictly below `n`. -/
theorem pyRandbelowLoop_lt (n k : Nat) (hn : 0 < n) :
    ∀ (fuel : Nat) (st : MTState), (pyRandbelowLoop n k fuel st).1 < n := by
  intro fuel
  induction fuel with
  | zero => intro st; exact hn
  | succ f ih =>
    intro st
    unfold pyRandbelowLoop
    dsimp only
    split
    · next h => exact h
    · exact ih _

/-- `_randbelow(n)` lands strictly below `n` for positive `n`. -/
theorem pyRandbelow_lt (n : Nat) (hn : 0 < n) (st : MTState) :
    (pyRandbelow n st).1 < n := by
  unfold pyRandbelow
  rw [if_neg (by omega)]
  exact pyRandbelowLoop_lt n _ hn 64 st

/-- `randint(a, b)` stays within `[a, b]` when `a ≤ b`. -/
theorem pyRandint_range (a b : Nat) (h : a ≤ b) (st : MTState) :
    a ≤ (pyRandint a b st).1 ∧ (pyRandint a b st).1 ≤ b := by
  have hr := pyRandbelow_lt (b + 1 - a) (by omega) st
  unfold pyRandint
  dsimp only
  refine ⟨Nat.le_add_right a _, ?_⟩
  omega

/-- A found engine quality is a registry entry's quality. -/
theorem engineQuality_mem (engines : List (String × ℚ)) (e : String) (q : ℚ)
    (h : engineQuality engines e = some q) : ∃ p ∈ engines, p.2 = q := by
  unfold engineQuality at h
  rcases Option.map_eq_some'.mp h with ⟨p, hf, hq⟩
  exact ⟨p, List.mem_of_find?_eq_some hf, hq⟩

theorem qsum_nonneg (l : List ℚ) (h : ∀ x ∈ l, 0 ≤ x) : 0 ≤ qsum l := by
  rw [qsum_eq]
  exact List.sum_nonneg h

theorem qsum_le_length (l : List ℚ) (h : ∀ x ∈ l, x ≤ 1) : qsum l ≤ (l.length : ℚ) := by
  rw [qsum_eq]
  induction l with
  | nil => simp
  | cons x xs ih =>
    simp only [List.sum_cons, List.length_cons]
    push_cast
    have hx := h x (by simp)
    have hxs := ih (fun y hy => h y (by simp [hy]))
    linarith

/-- The simulator's average engine quality lies in `[0, 1]` whenever every
registry quality does. -/
theorem avgQuality_bounds (engines : List (String × ℚ)) (engs : List String)
    (h : ∀ p ∈ engines, 0 ≤ p.2 ∧ p.2 ≤ 1) :
    0 ≤ avgQuality engines engs ∧ avgQuality engines engs ≤ 1 := by
  unfold avgQuality sumQualities
  rw [qdiv_eq]
  have hall : ∀ x ∈ engs.filterMap (engineQuality engines), 0 ≤ x ∧ x ≤ 1 := by
    intro x hx
    rcases List.mem_filterMap.mp hx with ⟨e, _, heq⟩
    rcases engineQuality_mem _ _ _ heq with ⟨p, hp, hpq⟩
    exact hpq ▸ h p hp
  have hden : (0 : ℚ) < ((max engs.length 1 : Nat) : ℚ) := by
    have : 1 ≤ max engs.length 1 := le_max_right _ _
    exact_mod_cast Nat.lt_of_lt_of_le Nat.zero_lt_one this
  constructor
  · exact div_nonneg (qsum_nonneg _ fun x hx => (hall x hx).1) hden.le
  · rw [div_le_one hden]
    calc qsum (engs.filterMap (engineQuality engines))
        ≤ ((engs.filterMap (engineQuality engines)).length : ℚ) :=
          qsum_le_length _ fun x hx => (hall x hx).2
      _ ≤ (engs.length : ℚ) := by exact_mod_cast List.length_filterMap_le _ _
      _ ≤ ((max engs.length 1 : Nat) : ℚ) := by exact_mod_cast le_max_left _ _

/-- Python `round(x, 2)` preserves the band `[0, 100]`. -/
theorem pyRound2_bounds (q : ℚ) (h0 : 0 ≤ q) (h1 : q ≤ 100) :
    0 ≤ pyRound2 q ∧ pyRound2 q ≤ 100 := by
  unfold pyRound2
  rw [qdiv_eq]
  have hr0 : (0 : Int) ≤ roundQ (qmul q 100) := by
    rw [roundQ_eq_round, qmul_eq, round_eq]
    refine Int.le_floor.mpr ?_
    push_cast
    linarith
  have hr1 : roundQ (qmul q 100) ≤ 10000 := by
    rw [roundQ_eq_round, qmul_eq, round_eq]
    have h2 : ⌊q * 100 + 1 / 2⌋ < 10001 := by
      refine Int.floor_lt.mpr ?_
      push_cast
      linarith
    omega
  constructor
  · positivity
  · rw [div_le_iff₀ (by norm_num : (0:ℚ) < 100)]
    calc ((roundQ (qmul q 100) : Int) : ℚ) ≤ ((10000 : Int) : ℚ) := by exact_mod_cast hr1
      _ = 100 * 100 := by norm_num

/-- The draws of `simDraws` are exactly the draws `_execute_task` makes, so
the simulated result is this function of the task's draw tuple, the engine
registry and the engine list — and of nothing else. -/
theorem execute_task_eq (engines : List (String × ℚ)) (tid task board : String)
    (engs : List String) :
    execute_task engines tid task board engs =
    { task_id := tid, status := TaskStatus.completed, board_used := board, engines_used := engs,
      confidence := pyRound2 (qmul (avgQuality engines engs) 100),
      files_changed := (List.range (simDraws task).1).map
        (fun i => "src/component_" ++ toString i ++ ".py"),
      tests_passed := min (pyTrunc (qmul (((simDraws task).2.1 : Nat) : ℚ)
          (qadd (avgQuality engines engs) (simDraws task).2.2.1)))
        (((simDraws task).2.1 : Nat) : Int),
      tests_total := (simDraws task).2.1,
      suggestions := SUGGESTION_POOL.take (simDraws task).2.2.2 } := by
  rfl

/-- The simulated `tests_total` draw lies in `[5, 20]`. -/
theorem simDraws_tt_range (task : String) :
    5 ≤ (simDraws task).2.1 ∧ (simDraws task).2.1 ≤ 20 :=
  pyRandint_range 5 20 (by omega) (pyRandint 1 5 (rngOfTask task)).2

/-! # Claims -/

/-- C6.  `select_board` lower-cases the task and returns the first matching
rule's board key in the fixed source order, `"auto"` when no rule matches;
in particular the three scenario texts route to the bug-detection board, the
documentation board (the document rule preceding the api rule), and
`"auto"`. -/
theorem c6_router_first_match :
    (∀ task : String, select_board task = selectBoardFirstMatch task) ∧
    select_board "Fix the login bug" = "bug-detector" ∧
    select_board "Write documentation for the API" = "doc-generator" ∧
    select_board "random unrelated text xyz" = "auto" := by
  refine ⟨fun task => ?_, by decide, by decide, by decide⟩
  simp only [select_board, selectBoardFirstMatch, ROUTER_RULES, List.find?]
  cases h1 : ["bug", "error", "fix", "crash"].any (strContains (strLower task)) <;>
  cases h2 : ["test", "verify", "qa"].any (strContains (strLower task)) <;>
  cases h3 : ["create", "build", "generate", "implement"].any (strContains (strLower task)) <;>
  cases h4 : ["document", "comment", "explain", "readme"].any (strContains (strLower task)) <;>
  cases h5 : ["architecture", "design", "structure"].any (strContains (strLower task)) <;>
  cases h6 : ["security", "vulnerability", "auth"].any (strContains (strLower task)) <;>
  cases h7 : ["optimize", "performance", "speed"].any (strContains (strLower task)) <;>
  cases h8 : ["refactor", "clean", "restructure"].any (strContains (strLower task)) <;>
  cases h9 : ["review", "check", "audit"].any (strContains (strLower task)) <;>
  cases h10 : ["integrate", "api", "connect"].any (strContains (strLower task)) <;>
  rfl

/-- C2 (amended).  `tests_total` is the second seeded draw `randint(5, 20)`
(hence in `[5, 20]`), and `tests_passed` is
`min(tests_total, int(tests_total * (avg_quality + uniform(-0.05, 0.05))))`
with `int` the *truncation toward zero* of CPython — not round-to-nearest as
the claim stated. -/
theorem c2_tests_passed_truncation (engines : List (String × ℚ))
    (tid task board : String) (engs : List String) :
    (execute_task engines tid task board engs).tests_total = (simDraws task).2.1 ∧
    5 ≤ (execute_task engines tid task board engs).tests_total ∧
    (execute_task engines tid task board engs).tests_total ≤ 20 ∧
    (execute_task engines tid task board engs).tests_passed =
      min (pyTrunc (qmul (((execute_task engines tid task board engs).tests_total : Nat) : ℚ)
            (qadd (avgQuality engines engs) (simDraws task).2.2.1)))
        (((execute_task engines tid task board engs).tests_total : Nat) : Int) := by
  have htt := simDraws_tt_range task
  rw [execute_task_eq]
  exact ⟨rfl, htt.1, htt.2, rfl⟩

/-- C2 (counterexample to the claim as stated).  For the task
`"task number 4"` under the auto-selected default engines the code computes
`tests_passed = 11` (truncation of `x ≈ 11.6289` with `tests_total = 12`),
while the claim's `min(tests_total, round(x))` equals `12`. -/
theorem c2_round_counterexample :
    (execute_task FALLBACK_ENGINES "tid" "task number 4" "auto" autoEngines).tests_passed = 11 ∧
    min (roundQ (qmul
          (((execute_task FALLBACK_ENGINES "tid" "task number 4" "auto" autoEngines).tests_total : Nat) : ℚ)
          (qadd (avgQuality FALLBACK_ENGINES autoEngines) (simDraws "task number 4").2.2.1)))
        (((execute_task FALLBACK_ENGINES "tid" "task number 4" "auto" autoEngines).tests_total : Nat) : Int)
      = 12 := by
  constructor
  · decide
  · decide

/-- C5.  With every registry quality in `[0, 1]`, every simulated outcome
satisfies `tests_passed ≤ tests_total`, and the confidence is
`round(avg_quality × 100, 2)`, which lies in `[0, 100]`. -/
theorem c5_result_invariants (engines : List (String × ℚ))
    (tid task board : String) (engs : List String)
    (h : ∀ p ∈ engines, 0 ≤ p.2 ∧ p.2 ≤ 1) :
    (execute_task engines tid task board engs).tests_passed ≤
      ((execute_task engines tid task board engs).tests_total : Int) ∧
    (execute_task engines tid task board engs).confidence =
      pyRound2 (qmul (avgQuality engines engs) 100) ∧
    0 ≤ (execute_task engines tid task board engs).confidence ∧
    (execute_task engines tid task board engs).confidence ≤ 100 := by
  have havg := avgQuality_bounds engines engs h
  have hband := pyRound2_bounds (qmul (avgQuality engines engs) 100)
    (by rw [qmul_eq]; nlinarith [havg.1])
    (by rw [qmul_eq]; nlinarith [havg.1, havg.2])
  rw [execute_task_eq]
  exact ⟨min_le_right _ _, rfl, hband.1, hband.2⟩

/-- C5 witness: the hypothesis and conclusion at the built-in registry and
the task `"hello"`. -/
theorem c5_witness :
    (∀ p ∈ FALLBACK_ENGINES, 0 ≤ p.2 ∧ p.2 ≤ 1) ∧
    ((execute_task FALLBACK_ENGINES "tid" "hello" "auto" autoEngines).tests_passed ≤
      ((execute_task FALLBACK_ENGINES "tid" "hello" "auto" autoEngines).tests_total : Int) ∧
    (execute_task FALLBACK_ENGINES "tid" "hello" "auto" autoEngines).confidence =
      pyRound2 (qmul (avgQuality FALLBACK_ENGINES autoEngines) 100) ∧
    0 ≤ (execute_task FALLBACK_ENGINES "tid" "hello" "auto" autoEngines).confidence ∧
    (execute_task FALLBACK_ENGINES "tid" "hello" "auto" autoEngines).confidence ≤ 100) :=
  ⟨by decide, c5_result_invariants FALLBACK_ENGINES "tid" "hello" "auto" autoEngines (by decide)⟩

/-- `_track_learning` either leaves the state alone or applies the clamped
quality nudge; in both cases everything but the quality scalar survives. -/
theorem track_learning_cases (st : AgentState) :
    track_learning st = st ∨
    track_learning st =
      { st with current_quality := min st.target_quality (qadd st.current_quality (mkRat 1 10000)) } := by
  unfold track_learning
  split
  · exact Or.inr rfl
  · exact Or.inl rfl

/-- `_track_learning` touches only the running quality scalar. -/
theorem track_learning_preserves (st : AgentState) :
    (track_learning st).engines = st.engines ∧ (track_learning st).boards = st.boards ∧
    (track_learning st).target_quality = st.target_quality := by
  rcases track_learning_cases st with h | h <;> rw [h] <;> exact ⟨rfl, rfl, rfl⟩

/-- `_verify_result` either promotes the status or returns the result
unchanged. -/
theorem verify_result_cases (engines : List (String × ℚ))
    (boards : List (String × AGIBoard)) (r : TaskResult) :
    verify_result engines boards r = r ∨
    verify_result engines boards r = { r with status := TaskStatus.verified } := by
  unfold verify_result
  dsimp only
  split
  · exact Or.inr rfl
  · exact Or.inl rfl

/-- `_verify_result` touches only the status (and, unmodelled, the output
text): all simulated numbers survive verification unchanged. -/
theorem verify_result_preserves (engines : List (String × ℚ))
    (boards : List (String × AGIBoard)) (r : TaskResult) :
    (verify_result engines boards r).files_changed = r.files_changed ∧
    (verify_result engines boards r).tests_passed = r.tests_passed ∧
    (verify_result engines boards r).tests_total = r.tests_total ∧
    (verify_result engines boards r).confidence = r.confidence ∧
    (verify_result engines boards r).suggestions = r.suggestions := by
  rcases verify_result_cases engines boards r with h | h <;> rw [h] <;>
    exact ⟨rfl, rfl, rfl, rfl, rfl⟩

/-- The optional verification step preserves the simulated numbers. -/
theorem cond_verify_preserves (engines : List (String × ℚ))
    (boards : List (String × AGIBoard)) (verify : Bool) (r : TaskResult) :
    ((if verify then verify_result engines boards r else r).files_changed = r.files_changed) ∧
    ((if verify then verify_result engines boards r else r).tests_passed = r.tests_passed) ∧
    ((if verify then verify_result engines boards r else r).tests_total = r.tests_total) ∧
    ((if verify then verify_result engines boards r else r).confidence = r.confidence) ∧
    ((if verify then verify_result engines boards r else r).suggestions = r.suggestions) := by
  cases verify
  · exact ⟨rfl, rfl, rfl, rfl, rfl⟩
  · exact verify_result_preserves engines boards r

/-- The state after `process_task` is exactly `_track_learning` of the state
before (registries untouched). -/
theorem process_task_state (st : AgentState) (tid task board : String) (verify : Bool) :
    (process_task st tid task board verify).2 = track_learning st := rfl

/-- C1.  Two runs of `process_task` on the same task text and board — the
second starting from the state the first left behind (quality scalar
nudged), with a fresh task id — produce identical `files_changed`,
`tests_passed`, `tests_total`, `confidence` and `suggestions`: the simulator
is freshly seeded from SHA-256 of the task text on each call and reads
nothing but the task text and the (unchanged) engine registry. -/
theorem c1_simulation_deterministic (st : AgentState) (tid1 tid2 task board : String)
    (verify : Bool) :
    ((process_task st tid1 task board verify).1.files_changed =
      (process_task (process_task st tid1 task board verify).2 tid2 task board verify).1.files_changed) ∧
    ((process_task st tid1 task board verify).1.tests_passed =
      (process_task (process_task st tid1 task board verify).2 tid2 task board verify).1.tests_passed) ∧
    ((process_task st tid1 task board verify).1.tests_total =
      (process_task (process_task st tid1 task board verify).2 tid2 task board verify).1.tests_total) ∧
    ((process_task st tid1 task board verify).1.confidence =
      (process_task (process_task st tid1 task board verify).2 tid2 task board verify).1.confidence) ∧
    ((process_task st tid1 task board verify).1.suggestions =
      (process_task (process_task st tid1 task board verify).2 tid2 task board verify).1.suggestions) := by
  have hE := (track_learning_preserves st).1
  have hB := (track_learning_preserves st).2.1
  rw [process_task_state]
  unfold process_task
  rw [hE, hB]
  dsimp only
  have hp1 := cond_verify_preserves st.engines st.boards verify
    (execute_task st.engines tid1 task (if board = "auto" then select_board task else board)
      (get_engines_for_board st.engines st.boards (if board = "auto" then select_board task else board)))
  have hp2 := cond_verify_preserves st.engines st.boards verify
    (execute_task st.engines tid2 task (if board = "auto" then select_board task else board)
      (get_engines_for_board st.engines st.boards (if board = "auto" then select_board task else board)))
  rw [hp1.1, hp1.2.1, hp1.2.2.1, hp1.2.2.2.1, hp1.2.2.2.2,
      hp2.1, hp2.2.1, hp2.2.2.1, hp2.2.2.2.1, hp2.2.2.2.2,
      execute_task_eq, execute_task_eq]
  exact ⟨rfl, rfl, rfl, rfl, rfl⟩

/-- With the built-in registry and boards, the verifier-average condition of
`_verify_result` is satisfied, so verification always promotes. -/
theorem verify_result_default_status (r : TaskResult) :
    (verify_result FALLBACK_ENGINES BOARD_PRESETS r).status = TaskStatus.verified := by
  unfold verify_result
  rw [if_pos (by decide)]

/-- C7.  With the built-in engine registry and board presets, `process_task`
with verification requested returns status `verified` for every task: the
average quality over the deduplicated union of the two verifier boards'
engines is exactly 0.9928 > 0.99, so the promotion branch is always taken
and no `completed` result is ever returned. -/
theorem c7_verification_always_promotes (tid task : String) :
    (process_task mkOmniCoderAGI tid task "auto" true).1.status = TaskStatus.verified ∧
    (process_task mkOmniCoderAGI tid task "auto" true).1.status ≠ TaskStatus.completed ∧
    qdiv (sumQualities FALLBACK_ENGINES
        (dedupFirst [] (get_engines_for_board FALLBACK_ENGINES BOARD_PRESETS "test-verifier" ++
          get_engines_for_board FALLBACK_ENGINES BOARD_PRESETS "quality-verifier")))
      ((max (dedupFirst [] (get_engines_for_board FALLBACK_ENGINES BOARD_PRESETS "test-verifier" ++
          get_engines_for_board FALLBACK_ENGINES BOARD_PRESETS "quality-verifier")).length 1 : Nat) : ℚ)
      = mkRat 9928 10000 := by
  have h := verify_result_default_status
    (execute_task mkOmniCoderAGI.engines tid task
      (if "auto" = "auto" then select_board task else "auto")
      (get_engines_for_board mkOmniCoderAGI.engines mkOmniCoderAGI.boards
        (if "auto" = "auto" then select_board task else "auto")))
  refine ⟨h, ?_, by decide⟩
  rw [show (process_task mkOmniCoderAGI tid task "auto" true).1.status = TaskStatus.verified from h]
  intro hc
  cases hc

/-- `_track_learning` is exactly the `trackStep` quality update. -/
theorem track_learning_eq (st : AgentState) :
    track_learning st =
      { st with current_quality := trackStep st.target_quality st.current_quality } := by
  unfold track_learning trackStep
  by_cases h : st.current_quality < st.target_quality
  · rw [if_pos h, if_pos h]
  · rw [if_neg h, if_neg h]

/-- The training fold over problems only iterates `_track_learning` on the
state. -/
theorem train_fold_state (problems : List String) :
    ∀ (st : AgentState) (acc : Int),
      ((problems.foldl
          (fun (acc : AgentState × Int) p =>
            let rs := process_task acc.1 "" p "auto" true
            (rs.2, acc.2 + rs.1.tests_passed))
          (st, acc)).1 : AgentState) =
        { st with current_quality :=
            trackIter st.target_quality problems.length st.current_quality } := by
  induction problems with
  | nil => intro st acc; rfl
  | cons p ps ih =>
    intro st acc
    rw [List.foldl_cons]
    dsimp only
    rw [process_task_state, track_learning_eq, ih]
    rfl

/-- The whole state effect of one `train_engines` call. -/
theorem train_engines_state_eq (st : AgentState) (ps : List String) (it : String) :
    (train_engines st ps it).2 = { st with current_quality := trainQualityAfter st ps it } := by
  unfold train_engines trainQualityAfter
  dsimp only
  rw [train_fold_state]

theorem trackStep_bounds (t q : ℚ) (hq : q ≤ t) :
    q ≤ trackStep t q ∧ trackStep t q ≤ t := by
  unfold trackStep
  have he : (0 : ℚ) ≤ mkRat 1 10000 := by decide
  by_cases h : q < t
  · rw [if_pos h]
    rw [qadd_eq]
    exact ⟨le_min hq (by linarith), min_le_left _ _⟩
  · rw [if_neg h]
    exact ⟨le_refl q, hq⟩

theorem trackIter_le (t : ℚ) (n : Nat) (q : ℚ) (hq : q ≤ t) : trackIter t n q ≤ t := by
  induction n generalizing q with
  | zero => exact hq
  | succ n ih => exact ih _ (trackStep_bounds t q hq).2

/-- The intensity multiplier is positive for the four table entries and the
default alike. -/
theorem multiplierOf_nonneg (s : String) : 0 ≤ multiplierOf s := by
  unfold multiplierOf
  rcases hf : INTENSITY_MULTIPLIER.find? (fun x => x.1 = s) with _ | p
  · rw [hf]
    decide
  · rw [hf]
    have hm := List.mem_of_find?_eq_some hf
    fin_cases hm <;> decide

/-- The per-problem scan is a monotone chain, bounded by the target, ending
at `trackIter`. -/
theorem trackScan_spec (t : ℚ) (n : Nat) (q : ℚ) (hq : q ≤ t) :
    List.Chain' (· ≤ ·) (q :: trackScan t n q) ∧
    (∀ x ∈ trackScan t n q, x ≤ t) ∧
    (trackScan t n q).getLastD q = trackIter t n q := by
  induction n generalizing q with
  | zero => exact ⟨List.chain'_singleton q, by simp [trackScan], rfl⟩
  | succ n ih =>
    have hs := trackStep_bounds t q hq
    obtain ⟨ih1, ih2, ih3⟩ := ih (trackStep t q) hs.2
    refine ⟨List.chain'_cons.mpr ⟨hs.1, ih1⟩, ?_, ?_⟩
    · intro x hx
      rcases List.mem_cons.mp hx with rfl | hx
      · exact hs.2
      · exact ih2 x hx
    · rw [show trackScan t (n + 1) q = trackStep t q :: trackScan t n (trackStep t q) from rfl,
        List.getLastD_cons]
      exact ih3

theorem getLastD_append (l1 l2 : List α) (d : α) :
    (l1 ++ l2).getLastD d = l2.getLastD (l1.getLastD d) := by
  induction l1 generalizing d with
  | nil => rfl
  | cons a l ih => rw [List.cons_append, List.getLastD_cons, List.getLastD_cons, ih]

theorem getLast?_cons_eq (a : α) (l : List α) : (a :: l).getLast? = some (l.getLastD a) := by
  induction l generalizing a with
  | nil => rfl
  | cons b l ih => rw [List.getLast?_cons_cons, ih, List.getLastD_cons]

/-- One `train_engines` call: monotone quality chain, bounded by 1, ending
at the final quality. -/
theorem trainTrajectory_spec (st : AgentState) (ps : List String) (it : String)
    (ht : st.target_quality = 1) (hq : st.current_quality ≤ 1) :
    List.Chain' (· ≤ ·) (st.current_quality :: trainTrajectory st ps it) ∧
    (∀ x ∈ trainTrajectory st ps it, x ≤ 1) ∧
    (trainTrajectory st ps it).getLastD st.current_quality = trainQualityAfter st ps it := by
  have hq' : st.current_quality ≤ st.target_quality := ht ▸ hq
  set n := (if ps.isEmpty then DEFAULT_TRAINING_PROBLEMS else ps).length with hn
  obtain ⟨hc, hb, hl⟩ := trackScan_spec st.target_quality n st.current_quality hq'
  have hqn : trackIter st.target_quality n st.current_quality ≤ st.target_quality :=
    trackIter_le _ _ _ hq'
  have hfin : trackIter st.target_quality n st.current_quality ≤ trainQualityAfter st ps it ∧
      trainQualityAfter st ps it ≤ st.target_quality := by
    unfold trainQualityAfter
    dsimp only
    rw [← hn, qadd_eq, qsub_eq]
    have hm : (0 : ℚ) ≤ qmul (multiplierOf it) (n : ℚ) := by
      rw [qmul_eq]
      have h0 := multiplierOf_nonneg it
      positivity
    constructor
    · have hmin : (0 : ℚ) ≤
          min (st.target_quality - trackIter st.target_quality n st.current_quality)
            (qmul (multiplierOf it) (n : ℚ)) := le_min (by linarith) hm
      linarith
    · have hmin : min (st.target_quality - trackIter st.target_quality n st.current_quality)
          (qmul (multiplierOf it) (n : ℚ)) ≤
          st.target_quality - trackIter st.target_quality n st.current_quality :=
        min_le_left _ _
      linarith
  unfold trainTrajectory
  rw [← hn]
  refine ⟨?_, ?_, ?_⟩
  · rw [show st.current_quality :: (trackScan st.target_quality n st.current_quality ++
        [trainQualityAfter st ps it]) =
        (st.current_quality :: trackScan st.target_quality n st.current_quality) ++
        [trainQualityAfter st ps it] from rfl,
      List.chain'_append]
    refine ⟨hc, List.chain'_singleton _, ?_⟩
    intro x hx y hy
    rw [getLast?_cons_eq, Option.mem_def, Option.some.injEq] at hx
    simp only [List.head?_cons, Option.mem_def, Option.some.injEq] at hy
    subst hx
    subst hy
    rw [hl]
    exact hfin.1
  · intro x hx
    rcases List.mem_append.mp hx with hx | hx
    · exact ht ▸ hb x hx
    · rcases List.mem_singleton.mp hx with rfl
      exact ht ▸ hfin.2
  · rw [getLastD_append, hl]
    rfl

/-- `train_engines` changes nothing but the quality scalar. -/
theorem train_engines_preserves (st : AgentState) (ps : List String) (it : String) :
    (train_engines st ps it).2.target_quality = st.target_quality ∧
    (train_engines st ps it).2.engines = st.engines ∧
    (train_engines st ps it).2.boards = st.boards ∧
    (train_engines st ps it).2.current_quality = trainQualityAfter st ps it := by
  rw [train_engines_state_eq]
  exact ⟨rfl, rfl, rfl, rfl⟩

/-- C3 (counterexample to the claim as stated).  From the initial quality
0.9927, `train(problems=["p1","p2"], intensity="low")` yields
`quality_after = 0.9931`, not the claimed `0.9929`: the two `process_task`
calls each nudge the scalar by +0.0001 before the final increment. -/
theorem c3_single_increment_counterexample :
    (train_engines mkOmniCoderAGI ["p1", "p2"] "low").1.quality_after = mkRat 9931 10000 ∧
    (train_engines mkOmniCoderAGI ["p1", "p2"] "low").1.quality_after ≠ mkRat 9929 10000 := by
  constructor
  · decide
  · decide

/-- C3 (amended).  The explicit training delta
`min(target − current, multiplier × len(problems))` is indeed applied once
at the end — but it lands on top of the per-problem `_track_learning`
nudges (one clamped +0.0001 per problem), so the scenario yields
`quality_after = round(0.9929 + 0.0002, 4) = 0.9931`, and in general the
quality after `train` is the final increment applied to the `n`-fold nudge
of the starting value. -/
theorem c3_train_quality_formula :
    ((train_engines mkOmniCoderAGI ["p1", "p2"] "low").1.quality_after = mkRat 9931 10000) ∧
    (∀ (st : AgentState) (ps : List String) (it : String), ps ≠ [] →
      (train_engines st ps it).2.current_quality =
        qadd (trackIter st.target_quality ps.length st.current_quality)
          (min (qsub st.target_quality (trackIter st.target_quality ps.length st.current_quality))
            (qmul (multiplierOf it) (ps.length : ℚ)))) := by
  refine ⟨by decide, ?_⟩
  intro st ps it hne
  rw [(train_engines_preserves st ps it).2.2.2]
  have hpe : ps.isEmpty = false := by
    cases ps
    · exact absurd rfl hne
    · rfl
  unfold trainQualityAfter
  simp only [hpe, Bool.false_eq_true, if_false]

/-- C3 witness: the amended formula instantiated at the scenario's inputs. -/
theorem c3_train_quality_formula_witness :
    ((["p1", "p2"] : List String) ≠ []) ∧
    (train_engines mkOmniCoderAGI ["p1", "p2"] "low").2.current_quality =
      qadd (trackIter mkOmniCoderAGI.target_quality (["p1", "p2"] : List String).length
          mkOmniCoderAGI.current_quality)
        (min (qsub mkOmniCoderAGI.target_quality
            (trackIter mkOmniCoderAGI.target_quality (["p1", "p2"] : List String).length
              mkOmniCoderAGI.current_quality))
          (qmul (multiplierOf "low") ((["p1", "p2"] : List String).length : ℚ))) :=
  ⟨by decide, c3_train_quality_formula.2 mkOmniCoderAGI ["p1", "p2"] "low" (by decide)⟩

/-- C10.  Starting at or below the 1.0 ceiling (with the fixed target 1.0),
any sequence of `train_engines` calls produces a quality trajectory that
never decreases at any step — neither at a per-problem nudge nor at a final
increment — and never exceeds 1.0; the trajectory's last value is the
quality of the state the calls leave behind. -/
theorem c10_quality_monotone_bounded (st : AgentState) (calls : List (List String × String))
    (ht : st.target_quality = 1) (hq : st.current_quality ≤ 1) :
    List.Chain' (· ≤ ·) (st.current_quality :: trainSeqTrajectory st calls) ∧
    (∀ x ∈ trainSeqTrajectory st calls, x ≤ 1) ∧
    (trainSeqTrajectory st calls).getLastD st.current_quality =
      (runTrains st calls).current_quality := by
  induction calls generalizing st with
  | nil =>
    refine ⟨List.chain'_singleton _, ?_, rfl⟩
    intro x hx
    exact absurd hx (List.not_mem_nil x)
  | cons c rest ih =>
    obtain ⟨h1, h2, h3⟩ := trainTrajectory_spec st c.1 c.2 ht hq
    have hpres := train_engines_preserves st c.1 c.2
    have ht' : (train_engines st c.1 c.2).2.target_quality = 1 := by rw [hpres.1, ht]
    have hql : (train_engines st c.1 c.2).2.current_quality = trainQualityAfter st c.1 c.2 :=
      hpres.2.2.2
    have hmem : trainQualityAfter st c.1 c.2 ∈ trainTrajectory st c.1 c.2 := by
      unfold trainTrajectory
      exact List.mem_append_right _ (List.mem_singleton.mpr rfl)
    have hq' : (train_engines st c.1 c.2).2.current_quality ≤ 1 := by
      rw [hql]
      exact h2 _ hmem
    obtain ⟨ih1, ih2, ih3⟩ := ih (train_engines st c.1 c.2).2 ht' hq'
    have hseq : trainSeqTrajectory st (c :: rest) =
        trainTrajectory st c.1 c.2 ++ trainSeqTrajectory (train_engines st c.1 c.2).2 rest := rfl
    refine ⟨?_, ?_, ?_⟩
    · rw [hseq,
        show st.current_quality :: (trainTrajectory st c.1 c.2 ++
            trainSeqTrajectory (train_engines st c.1 c.2).2 rest) =
          (st.current_quality :: trainTrajectory st c.1 c.2) ++
            trainSeqTrajectory (train_engines st c.1 c.2).2 rest from rfl,
        List.chain'_append]
      refine ⟨h1, ih1.tail, ?_⟩
      intro x hx y hy
      rw [getLast?_cons_eq, Option.mem_def, Option.some.injEq] at hx
      subst hx
      rw [h3]
      have := (List.chain'_cons'.mp ih1).1 y hy
      rw [hql] at this
      exact this
    · rw [hseq]
      intro x hx
      rcases List.mem_append.mp hx with hx | hx
      · exact h2 x hx
      · exact ih2 x hx
    · rw [hseq, getLastD_append, h3, show runTrains st (c :: rest) =
          runTrains (train_engines st c.1 c.2).2 rest from rfl, ← ih3, hql]

/-- C10 witness: two train calls (explicit problems, then the default list)
from the built-in initial state. -/
theorem c10_quality_monotone_bounded_witness :
    mkOmniCoderAGI.target_quality = 1 ∧ mkOmniCoderAGI.current_quality ≤ 1 ∧
    (List.Chain' (· ≤ ·) (mkOmniCoderAGI.current_quality ::
        trainSeqTrajectory mkOmniCoderAGI [(["p1"], "low"), ([], "extreme")]) ∧
      (∀ x ∈ trainSeqTrajectory mkOmniCoderAGI [(["p1"], "low"), ([], "extreme")], x ≤ 1) ∧
      (trainSeqTrajectory mkOmniCoderAGI [(["p1"], "low"), ([], "extreme")]).getLastD
          mkOmniCoderAGI.current_quality =
        (runTrains mkOmniCoderAGI [(["p1"], "low"), ([], "extreme")]).current_quality) :=
  ⟨by decide, by decide,
    c10_quality_monotone_bounded mkOmniCoderAGI [(["p1"], "low"), ([], "extreme")]
      (by decide) (by decide)⟩

/-! ## Logger lemmas -/

/-- The parse-else-skip loop of `tail` computes exactly the well-formed
entries, in order. -/
theorem tailLoop_eq (lines : List String) : tailLoop lines = wellFormedEntries lines := by
  induction lines with
  | nil => rfl
  | cons line rest ih =>
    by_cases he : pyStrip line = ""
    · simp [tailLoop, wellFormedEntries, List.filterMap_cons, he, ih]
    · cases hj : jloads (pyStrip line) <;>
        simp [tailLoop, wellFormedEntries, List.filterMap_cons, he, hj, ih]

theorem pyLastSlice_all (limit : Nat) (xs : List α) (h : xs.length ≤ limit) :
    pyLastSlice limit xs = xs := by
  unfold pyLastSlice
  split
  · rfl
  · rw [show xs.length - limit = 0 by omega, List.drop_zero]

theorem tailLoop_append (l1 l2 : List String) :
    tailLoop (l1 ++ l2) = tailLoop l1 ++ tailLoop l2 := by
  rw [tailLoop_eq, tailLoop_eq, tailLoop_eq, wellFormedEntries, wellFormedEntries,
    wellFormedEntries, List.filterMap_append]

/-- `append` writes are parsed back in order by the loop, given the stdlib
round-trip contract `loads(dumps(payload)) = payload` on each payload. -/
theorem tailLoop_map_dumps (items : List (String × List (String × JValue)))
    (hrt : ∀ it ∈ items, jloads (pyStrip (jdumps (JValue.obj (mkPayload it.1 it.2)))) =
      some (JValue.obj (mkPayload it.1 it.2))) :
    tailLoop (items.map (fun it => jdumps (JValue.obj (mkPayload it.1 it.2)))) =
      items.map (fun it => JValue.obj (mkPayload it.1 it.2)) := by
  induction items with
  | nil => rfl
  | cons it rest ih =>
    have h := hrt it (List.mem_cons_self it rest)
    have hne : ¬(pyStrip (jdumps (JValue.obj (mkPayload it.1 it.2))) = "") := by
      intro he
      rw [he] at h
      exact Option.noConfusion h
    rw [List.map_cons, List.map_cons]
    unfold tailLoop
    dsimp only
    rw [if_neg hne, h, ih (fun x hx => hrt x (List.mem_cons_of_mem _ hx))]

/-- A sequence of `append` calls on an empty file writes exactly the dumped
payload lines, in order. -/
theorem appendAll_eq (items : List (String × List (String × JValue))) :
    ∀ file, appendAll file items =
      file ++ items.map (fun it => jdumps (JValue.obj (mkPayload it.1 it.2))) := by
  induction items with
  | nil => intro file; simp [appendAll]
  | cons it rest ih =>
    intro file
    unfold appendAll logger_append
    dsimp only
    rw [ih, List.map_cons, List.append_assoc, List.singleton_append]

theorem objLookup_objSet_ne (m : List (String × JValue)) (k k' : String) (v : JValue)
    (h : k ≠ k') : objLookup (objSet m k v) k' = objLookup m k' := by
  induction m with
  | nil => simp [objSet, objLookup, List.find?_cons, h]
  | cons p rest ih =>
    by_cases hp : p.1 = k
    · simp only [objSet, if_pos hp, objLookup, List.find?_cons]
      rw [show (decide (k = k')) = false from decide_eq_false h,
        show (decide (p.1 = k')) = false from decide_eq_false (hp ▸ h)]
    · simp only [objSet, if_neg hp, objLookup, List.find?_cons] at ih ⊢
      cases hd : decide (p.1 = k')
      · exact ih
      · rfl

theorem objLookup_objSet_self (m : List (String × JValue)) (k : String) (v : JValue) :
    objLookup (objSet m k v) k = some v := by
  induction m with
  | nil => simp [objSet, objLookup, List.find?_cons]
  | cons p rest ih =>
    by_cases hp : p.1 = k
    · simp [objSet, if_pos hp, objLookup, List.find?_cons]
    · simp only [objSet, if_neg hp, objLookup, List.find?_cons] at ih ⊢
      rw [show (decide (p.1 = k)) = false from decide_eq_false hp]
      exact ih

theorem objLookup_none_keys (m : List (String × JValue)) (k : String)
    (h : objLookup m k = none) : ∀ kv ∈ m, kv.1 ≠ k := by
  intro kv hkv hk
  induction m with
  | nil => cases hkv
  | cons p rest ih =>
    simp only [objLookup, List.find?_cons] at h
    rcases List.mem_cons.mp hkv with rfl | hkv'
    · rw [show (decide (kv.1 = k)) = true from decide_eq_true hk] at h
      exact Option.noConfusion h
    · cases hd : decide (p.1 = k)
      · rw [hd] at h
        exact ih h hkv'
      · rw [hd] at h
        exact Option.noConfusion h

theorem foldl_objSet_lookup (entry : List (String × JValue)) (k : String)
    (hk : ∀ kv ∈ entry, kv.1 ≠ k) :
    ∀ acc, objLookup (entry.foldl (fun acc kv => objSet acc kv.1 kv.2) acc) k =
      objLookup acc k := by
  induction entry with
  | nil => intro acc; rfl
  | cons kv rest ih =>
    intro acc
    rw [List.foldl_cons, ih (fun x hx => hk x (List.mem_cons_of_mem _ hx)),
      objLookup_objSet_ne _ _ _ _ (hk kv (List.mem_cons_self _ _))]

/-- The payload carries the timestamp `append` added, provided the caller's
entry does not itself bind `"timestamp"`. -/
theorem mkPayload_timestamp (now : String) (entry : List (String × JValue))
    (h : objLookup entry "timestamp" = none) :
    objLookup (mkPayload now entry) "timestamp" = some (JValue.str now) := by
  unfold mkPayload
  rw [foldl_objSet_lookup entry "timestamp" (objLookup_none_keys entry "timestamp" h)]
  rfl

/-! ## Settings lemmas -/

/-- `set`'s descent, then `get`'s descent along the same path, recovers the
stored value. -/
theorem settings_set_loop_get (ks : List String) :
    ∀ (m doc' : List (String × JValue)) (lastK : String) (v d : JValue),
      settings_set_loop m ks lastK v = some doc' →
      settings_get_loop d (JValue.obj doc') (ks ++ [lastK]) = v := by
  induction ks with
  | nil =>
    intro m doc' lastK v d h
    unfold settings_set_loop at h
    injection h with h
    subst h
    show settings_get_loop d ((objLookup (objSet m lastK v) lastK).getD d) [] = v
    rw [objLookup_objSet_self]
    rfl
  | cons k ks ih =>
    intro m doc' lastK v d h
    unfold settings_set_loop at h
    rcases hm : objLookup m k with _ | sub
    · rw [hm] at h
      rcases ho : settings_set_loop [] ks lastK v with _ | sub'
      · rw [ho] at h
        exact Option.noConfusion h
      · rw [ho] at h
        simp only [Option.map_some] at h
        injection h with h
        subst h
        show settings_get_loop d ((objLookup (objSet m k (JValue.obj sub')) k).getD d)
          (ks ++ [lastK]) = v
        rw [objLookup_objSet_self]
        exact ih [] sub' lastK v d ho
    · rw [hm] at h
      cases sub with
      | obj subm =>
        dsimp only at h
        rcases ho : settings_set_loop subm ks lastK v with _ | sub'
        · rw [ho] at h
          exact Option.noConfusion h
        · rw [ho] at h
          injection h with h
          subst h
          show settings_get_loop d ((objLookup (objSet m k (JValue.obj sub')) k).getD d)
            (ks ++ [lastK]) = v
          rw [objLookup_objSet_self]
          exact ih subm sub' lastK v d ho
      | null => exact Option.noConfusion h
      | bool b => exact Option.noConfusion h
      | int n => exact Option.noConfusion h
      | str s => exact Option.noConfusion h
      | arr xs => exact Option.noConfusion h

theorem settings_get_loop_self_nonobj (d : JValue) (hd : d.isObj = false)
    (ks : List String) : settings_get_loop d d ks = d := by
  cases ks with
  | nil => rfl
  | cons k l =>
    cases d with
    | obj m => exact absurd hd (by simp [JValue.isObj])
    | null => rfl
    | bool b => rfl
    | int n => rfl
    | str s => rfl
    | arr xs => rfl

/-- `get` on an unset path (in the strict sense) returns the default, for
any non-mapping default. -/
theorem settings_get_loop_default (d : JValue) (hd : d.isObj = false) :
    ∀ (ks : List String) (v : JValue), strictGet v ks = none → settings_get_loop d v ks = d := by
  intro ks
  induction ks with
  | nil =>
    intro v h
    simp [strictGet] at h
  | cons k ks ih =>
    intro v h
    cases v with
    | obj m =>
      unfold strictGet at h
      rcases hm : objLookup m k with _ | v'
      · show settings_get_loop d ((objLookup m k).getD d) ks = d
        rw [hm]
        exact settings_get_loop_self_nonobj d hd ks
      · rw [hm] at h
        show settings_get_loop d ((objLookup m k).getD d) ks = d
        rw [hm]
        exact ih v' h
    | null => rfl
    | bool b => rfl
    | int n => rfl
    | str s => rfl
    | arr xs => rfl

/-! ## Logger and settings claims -/

/-- C4 (counterexample to the claim as stated).  A file holding one
well-formed line then one malformed line: `tail(1)` slices the last raw line
first, so the malformed line consumes the whole window and nothing is
returned even though one well-formed entry exists. -/
theorem c4_malformed_counts_against_limit :
    jloads (pyStrip (jdumps (JValue.obj [("a", JValue.int 1)]))) =
      some (JValue.obj [("a", JValue.int 1)]) ∧
    logger_tail [jdumps (JValue.obj [("a", JValue.int 1)]), "@@@"] 1 = [] := by
  constructor
  · rfl
  · rfl

/-- C4 (amended).  For every file and positive limit, `tail(limit)` returns
the well-formed entries among the *last `limit` raw lines* — malformed (and
blank) lines are skipped silently (a parse failure is consumed by the
`except JSONDecodeError: continue` arm, never raised), but they do count
against `limit`; at most `limit` entries are returned. -/
theorem c4_tail_window (file : List String) (limit : Nat) (h : limit ≠ 0) :
    logger_tail file limit = wellFormedEntries (pyLastSlice limit file) ∧
    (logger_tail file limit).length ≤ limit := by
  constructor
  · exact tailLoop_eq _
  · unfold logger_tail
    rw [tailLoop_eq]
    calc (wellFormedEntries (pyLastSlice limit file)).length
        ≤ (pyLastSlice limit file).length := List.length_filterMap_le _ _
      _ ≤ limit := by
          unfold pyLastSlice
          rw [if_neg h, List.length_drop]
          omega

/-- C4 witness: the amended description at a concrete two-line file. -/
theorem c4_tail_window_witness :
    (2 : Nat) ≠ 0 ∧
    (logger_tail [jdumps (JValue.obj [("a", JValue.int 1)]), "@@@"] 2 =
      wellFormedEntries (pyLastSlice 2 [jdumps (JValue.obj [("a", JValue.int 1)]), "@@@"]) ∧
    (logger_tail [jdumps (JValue.obj [("a", JValue.int 1)]), "@@@"] 2).length ≤ 2) :=
  ⟨by decide, c4_tail_window [jdumps (JValue.obj [("a", JValue.int 1)]), "@@@"] 2 (by decide)⟩

/-- C8.  Starting from an empty log, `N` `append` calls then `tail(limit)`
with `limit ≥ N` return exactly the `N` payloads in append order, each
carrying the `timestamp` field added at append time (the caller entries not
binding `"timestamp"` themselves); an externally appended non-JSON line is
skipped without raising, leaving the same `N` entries.  The `hrt` hypothesis
is the stdlib contract `json.loads(json.dumps(payload)) == payload`. -/
theorem c8_log_roundtrip (items : List (String × List (String × JValue))) (limit : Nat)
    (junk : String)
    (hrt : ∀ it ∈ items, jloads (pyStrip (jdumps (JValue.obj (mkPayload it.1 it.2)))) =
      some (JValue.obj (mkPayload it.1 it.2)))
    (hts : ∀ it ∈ items, objLookup it.2 "timestamp" = none)
    (hlim : items.length ≤ limit)
    (hjunk : jloads (pyStrip junk) = none) :
    logger_tail (appendAll [] items) limit =
      items.map (fun it => JValue.obj (mkPayload it.1 it.2)) ∧
    (∀ it ∈ items, objLookup (mkPayload it.1 it.2) "timestamp" = some (JValue.str it.1)) ∧
    logger_tail (appendAll [] items ++ [junk]) (limit + 1) =
      items.map (fun it => JValue.obj (mkPayload it.1 it.2)) := by
  have hmaplen : (items.map (fun it => jdumps (JValue.obj (mkPayload it.1 it.2)))).length =
      items.length := List.length_map _ _
  have hjunktail : tailLoop [junk] = [] := by
    unfold tailLoop
    dsimp only
    by_cases he : pyStrip junk = ""
    · rw [if_pos he]
      rfl
    · rw [if_neg he, hjunk]
      rfl
  refine ⟨?_, ?_, ?_⟩
  · unfold logger_tail
    rw [appendAll_eq, List.nil_append, pyLastSlice_all _ _ (by rw [hmaplen]; exact hlim)]
    exact tailLoop_map_dumps items hrt
  · intro it hit
    exact mkPayload_timestamp it.1 it.2 (hts it hit)
  · unfold logger_tail
    rw [appendAll_eq, List.nil_append,
      pyLastSlice_all _ _ (by rw [List.length_append, hmaplen]; simp; omega),
      tailLoop_append, hjunktail, List.append_nil]
    exact tailLoop_map_dumps items hrt

/-- C8 witness: two concrete appended entries, `limit = 3`, junk `"@@@"`. -/
theorem c8_log_roundtrip_witness :
    (∀ it ∈ ([("2024-01-01T00:00:00Z", [("type", JValue.str "task"), ("task_id", JValue.str "t1")]),
        ("2024-01-01T00:00:01Z", [("type", JValue.str "task"), ("task_id", JValue.str "t2")])] :
          List (String × List (String × JValue))),
      jloads (pyStrip (jdumps (JValue.obj (mkPayload it.1 it.2)))) =
        some (JValue.obj (mkPayload it.1 it.2))) ∧
    (∀ it ∈ ([("2024-01-01T00:00:00Z", [("type", JValue.str "task"), ("task_id", JValue.str "t1")]),
        ("2024-01-01T00:00:01Z", [("type", JValue.str "task"), ("task_id", JValue.str "t2")])] :
          List (String × List (String × JValue))),
      objLookup it.2 "timestamp" = none) ∧
    (([("2024-01-01T00:00:00Z", [("type", JValue.str "task"), ("task_id", JValue.str "t1")]),
        ("2024-01-01T00:00:01Z", [("type", JValue.str "task"), ("task_id", JValue.str "t2")])] :
          List (String × List (String × JValue))).length ≤ 3) ∧
    (jloads (pyStrip "@@@") = none) ∧
    (logger_tail (appendAll []
        [("2024-01-01T00:00:00Z", [("type", JValue.str "task"), ("task_id", JValue.str "t1")]),
         ("2024-01-01T00:00:01Z", [("type", JValue.str "task"), ("task_id", JValue.str "t2")])]) 3 =
      ([("2024-01-01T00:00:00Z", [("type", JValue.str "task"), ("task_id", JValue.str "t1")]),
        ("2024-01-01T00:00:01Z", [("type", JValue.str "task"), ("task_id", JValue.str "t2")])] :
          List (String × List (String × JValue))).map
        (fun it => JValue.obj (mkPayload it.1 it.2)) ∧
      (∀ it ∈ ([("2024-01-01T00:00:00Z", [("type", JValue.str "task"), ("task_id", JValue.str "t1")]),
          ("2024-01-01T00:00:01Z", [("type", JValue.str "task"), ("task_id", JValue.str "t2")])] :
            List (String × List (String × JValue))),
        objLookup (mkPayload it.1 it.2) "timestamp" = some (JValue.str it.1)) ∧
      logger_tail (appendAll []
          [("2024-01-01T00:00:00Z", [("type", JValue.str "task"), ("task_id", JValue.str "t1")]),
           ("2024-01-01T00:00:01Z", [("type", JValue.str "task"), ("task_id", JValue.str "t2")])] ++
          ["@@@"]) (3 + 1) =
        ([("2024-01-01T00:00:00Z", [("type", JValue.str "task"), ("task_id", JValue.str "t1")]),
          ("2024-01-01T00:00:01Z", [("type", JValue.str "task"), ("task_id", JValue.str "t2")])] :
            List (String × List (String × JValue))).map
          (fun it => JValue.obj (mkPayload it.1 it.2))) := by
  have hrt : ∀ it ∈ ([("2024-01-01T00:00:00Z", [("type", JValue.str "task"), ("task_id", JValue.str "t1")]),
      ("2024-01-01T00:00:01Z", [("type", JValue.str "task"), ("task_id", JValue.str "t2")])] :
        List (String × List (String × JValue))),
      jloads (pyStrip (jdumps (JValue.obj (mkPayload it.1 it.2)))) =
        some (JValue.obj (mkPayload it.1 it.2)) := by
    intro it hit
    cases hit with
    | head => rfl
    | tail _ h2 =>
      cases h2 with
      | head => rfl
      | tail _ h3 => cases h3
  have hts : ∀ it ∈ ([("2024-01-01T00:00:00Z", [("type", JValue.str "task"), ("task_id", JValue.str "t1")]),
      ("2024-01-01T00:00:01Z", [("type", JValue.str "task"), ("task_id", JValue.str "t2")])] :
        List (String × List (String × JValue))),
      objLookup it.2 "timestamp" = none := by
    intro it hit
    cases hit with
    | head => rfl
    | tail _ h2 =>
      cases h2 with
      | head => rfl
      | tail _ h3 => cases h3
  exact ⟨hrt, hts, by decide, rfl,
    c8_log_roundtrip _ 3 "@@@" hrt hts (by decide) rfl⟩

/-- C9.  `set("a.b.c", 5)` then `get("a.b.c")` returns 5 whenever the set
succeeds (i.e. the path does not traverse an existing non-mapping, in which
case Python raises instead), with intermediate mappings created as needed;
and `get("x.y.z", default=42)` on an unset path — missing key or traversal
of a non-mapping — returns 42. -/
theorem c9_settings_roundtrip :
    (∀ (doc doc' : List (String × JValue)) (d : JValue),
      settings_set doc "a.b.c" (JValue.int 5) = some doc' →
      settings_get doc' "a.b.c" d = JValue.int 5) ∧
    (∀ doc : List (String × JValue),
      strictGet (JValue.obj doc) ["x", "y", "z"] = none →
      settings_get doc "x.y.z" (JValue.int 42) = JValue.int 42) := by
  constructor
  · intro doc doc' d h
    have h' : settings_set_loop doc ["a", "b"] "c" (JValue.int 5) = some doc' := h
    exact settings_set_loop_get ["a", "b"] doc doc' "c" (JValue.int 5) d h'
  · intro doc h
    exact settings_get_loop_default (JValue.int 42) rfl ["x", "y", "z"] (JValue.obj doc) h

/-- C9 witness: the empty settings document. -/
theorem c9_settings_roundtrip_witness :
    (settings_set ([] : List (String × JValue)) "a.b.c" (JValue.int 5) =
      some [("a", JValue.obj [("b", JValue.obj [("c", JValue.int 5)])])]) ∧
    settings_get [("a", JValue.obj [("b", JValue.obj [("c", JValue.int 5)])])] "a.b.c"
      JValue.null = JValue.int 5 ∧
    strictGet (JValue.obj ([] : List (String × JValue))) ["x", "y", "z"] = none ∧
    settings_get ([] : List (String × JValue)) "x.y.z" (JValue.int 42) = JValue.int 42 :=
  ⟨rfl,
    c9_settings_roundtrip.1 [] [("a", JValue.obj [("b", JValue.obj [("c", JValue.int 5)])])]
      JValue.null rfl,
    rfl,
    c9_settings_roundtrip.2 [] rfl⟩

end OmniCoder